import Mathlib

/-!
IMU serial acquisition: frame synchronizer, decoder, statistics and rolling chart.

A shallow embedding of `src/mainwindow.cpp` and `src/mainwindow.h`.

Modelling conventions
* A byte is a `Fin 256`; `QByteArray` is a `List Byte`.
* A C `float` is carried as its 32-bit pattern (`FloatBits`, a natural number).  The payload is
  reinterpreted with `memcpy`, so on the little-endian hosts the wire format targets the pattern
  of `floatData[j]` is the little-endian word at byte offset `4 * j`.  Float addition and the
  division by `IMU_COUNT` used for the means are parameters (`FloatOps`).
* `QDateTime` values are integer milliseconds; an invalid (default constructed) `QDateTime`
  is `none`.  The frequency estimate is an exact rational.
* A `qreal` is an IEEE-754 binary64 `double`, carried as the rational it denotes.  Each double
  operation of `updateChart` is the exact operation followed by `roundDouble`, rounding to
  nearest with ties to even.  The exponent range is left unbounded: the values computed from a
  `qint64` millisecond count lie between 2^-62 and 2^55 in magnitude, where binary64 has
  neither subnormals nor overflow, and no NaN or infinity can arise.
* Sizes, indices and counters are natural numbers: an `int` size would overflow only with a
  buffer of 2^31 bytes, a `qint64` counter only after 2^63 frames.
* Every read of the receive buffer is checked: a `memcmp`/`memcpy` whose range would leave the
  buffer makes the embedding return `none`.
* The text-box updates of lines 298-353 (`frameCounter`, `pendingDisplayText`) touch widget
  state only and are not part of the state.
-/

namespace ImuSerial

/-! ## Constants (mainwindow.h, lines 81-118; mainwindow.cpp, lines 7-9 and 632) -/

abbrev Byte := Fin 256

abbrev FloatBits := Nat

def IMU_COUNT : Nat := 9
def DATA_PER_IMU : Nat := 6
def FLOAT_SIZE : Nat := 4
def HEAD_SIZE : Nat := 2
def TAIL_SIZE : Nat := 4
def DATA_SIZE : Nat := IMU_COUNT * DATA_PER_IMU * FLOAT_SIZE
def FRAME_SIZE : Nat := HEAD_SIZE + DATA_SIZE + TAIL_SIZE

def HEAD_PATTERN : List Byte := [0xAA, 0x55]
def TAIL_PATTERN : List Byte := [0x00, 0x00, 0x80, 0x7f]

def MAX_DISPLAY_SECONDS : Nat := 10
def Chart_FPS : Nat := 10
def MAX_PARSE_PER_CALL : Nat := 10

/-! ## Data model -/

/-- A C array of three values indexed 0, 1, 2 (the x, y, z axes). -/
structure Axis3 (α : Type) where
  x : α
  y : α
  z : α
deriving DecidableEq, Repr

def Axis3.map {α β : Type} (f : α → β) (a : Axis3 α) : Axis3 β :=
  ⟨f a.x, f a.y, f a.z⟩

def Axis3.zipWith {α β γ : Type} (f : α → β → γ) (a : Axis3 α) (b : Axis3 β) : Axis3 γ :=
  ⟨f a.x b.x, f a.y b.y, f a.z b.z⟩

def Axis3.toList {α : Type} (a : Axis3 α) : List α := [a.x, a.y, a.z]

/-- The struct IMUData of mainwindow.h: `float accel[3]; float gyro[3];`. -/
structure IMUData where
  accel : Axis3 FloatBits
  gyro : Axis3 FloatBits
deriving DecidableEq, Repr

/-- Single precision arithmetic used for the means: `a + b` and `a / IMU_COUNT` on patterns. -/
structure FloatOps where
  add : FloatBits → FloatBits → FloatBits
  divCount : FloatBits → FloatBits

/-- A chart point `QPointF(time, value)`. -/
abbrev QPointF := ℚ × FloatBits

/-- One CSV row handed to the text stream: the UTC timestamp and the nine readings. -/
abbrev Row := Int × List IMUData

/-- The `QTextStream` behind `fileStream`: the rows written so far and, for every call of
`flush()`, the number of rows that had been written when it was called. -/
structure TextStream where
  written : List Row
  flushedAt : List Nat
deriving DecidableEq, Repr

/-- The clock values observed during one call of parseReceivedData that accepts a frame:
`chartNow` is read in updateChart (line 497), `saveNow` in saveDataToFile (line 456) and
`frameNow` is `now` of line 290. -/
structure Clock where
  chartNow : Int
  saveNow : Int
  frameNow : Int
deriving DecidableEq, Repr

/-- The members of `MainWindow` that the byte handler reads or writes.  `extracted` is an
observation log: the 216 bytes copied into `floatData` at each accepted frame, oldest first. -/
structure State where
  receiveBuffer : List Byte
  imuData : List IMUData
  dataValid : Bool
  totalBytesReceived : Nat
  validFramesReceived : Nat
  invalidFramesReceived : Nat
  lastFrameTime : Option Int
  actualFrequency : ℚ
  framesSinceLastDisplay : Nat
  chartUpdateCounter : Nat
  lastMeanAccel : Axis3 FloatBits
  lastMeanGyro : Axis3 FloatBits
  accelSeries : Axis3 (List QPointF)
  gyroSeries : Axis3 (List QPointF)
  axisX : ℚ × ℚ
  startTime : Int
  isSaving : Bool
  fileStream : Option TextStream
  extracted : List (List Byte)

/-- The state left by the constructor (lines 11-54) when `initCharts` reads the clock as
`start`; the uninitialised `imuData` array is taken to be empty. -/
def State.init (start : Int) : State :=
  { receiveBuffer := []
    imuData := []
    dataValid := false
    totalBytesReceived := 0
    validFramesReceived := 0
    invalidFramesReceived := 0
    lastFrameTime := none
    actualFrequency := 0
    framesSinceLastDisplay := 0
    chartUpdateCounter := 0
    lastMeanAccel := ⟨0, 0, 0⟩
    lastMeanGyro := ⟨0, 0, 0⟩
    accelSeries := ⟨[], [], []⟩
    gyroSeries := ⟨[], [], []⟩
    axisX := (0, MAX_DISPLAY_SECONDS)
    startTime := start
    isSaving := false
    fileStream := none
    extracted := [] }

/-! ## Frame decoder (lines 241-271) -/

/-- The 32-bit pattern with bytes `b0 b1 b2 b3` in increasing address order. -/
def leWord (b0 b1 b2 b3 : Byte) : FloatBits :=
  b0.val + 256 * b1.val + 65536 * b2.val + 16777216 * b3.val

/-- Entry `j` of `floatData` after the `memcpy` of line 245. -/
def floatAt (payload : List Byte) (j : Nat) : FloatBits :=
  leWord (payload.getD (FLOAT_SIZE * j) 0) (payload.getD (FLOAT_SIZE * j + 1) 0)
    (payload.getD (FLOAT_SIZE * j + 2) 0) (payload.getD (FLOAT_SIZE * j + 3) 0)

/-- The scratch array `float floatData[IMU_COUNT * DATA_PER_IMU]`. -/
def floatData (payload : List Byte) : List FloatBits :=
  (List.range (IMU_COUNT * DATA_PER_IMU)).map (floatAt payload)

/-- The assignments of lines 252-257 for sensor `k`. -/
def readingAt (fd : List FloatBits) (k : Nat) : IMUData :=
  { accel := ⟨fd.getD (k * 6 + 0) 0, fd.getD (k * 6 + 1) 0, fd.getD (k * 6 + 2) 0⟩
    gyro := ⟨fd.getD (k * 6 + 3) 0, fd.getD (k * 6 + 4) 0, fd.getD (k * 6 + 5) 0⟩ }

/-- The array `imuData` after the loop of lines 250-265. -/
def decodePayload (payload : List Byte) : List IMUData :=
  (List.range IMU_COUNT).map (readingAt (floatData payload))

/-- The accumulation `mean[j] += imuData[k].field[j]` over `k`, starting from `0.0f`. -/
def sumAxes (fp : FloatOps) (field : IMUData → Axis3 FloatBits) (imu : List IMUData) :
    Axis3 FloatBits :=
  imu.foldl (fun m r => Axis3.zipWith fp.add m (field r)) ⟨0, 0, 0⟩

/-- The arrays `meanAccel`, `meanGyro` after lines 247-271. -/
def means (fp : FloatOps) (imu : List IMUData) : Axis3 FloatBits × Axis3 FloatBits :=
  ((sumAxes fp IMUData.accel imu).map fp.divCount, (sumAxes fp IMUData.gyro imu).map fp.divCount)

/-! ## Rolling chart window (lines 494-543) -/

/-- The counting loop of lines 510-517: the number of leading points older than `minTime`. -/
def removeCount (minTime : ℚ) : List QPointF → Nat
  | [] => 0
  | point :: rest => if point.1 < minTime then removeCount minTime rest + 1 else 0

/-- Lines 509-520 for one series: `removeCount` times `remove(0)`. -/
def evictOld (minTime : ℚ) (points : List QPointF) : List QPointF :=
  points.drop (removeCount minTime points)

/-- Rounding of a rational to the nearest integer, a tie going to the even neighbour. -/
def roundHalfEven (r : ℚ) : ℤ :=
  if r - ⌊r⌋ < 1 / 2 then ⌊r⌋
  else if 1 / 2 < r - ⌊r⌋ then ⌊r⌋ + 1
  else if ⌊r⌋ % 2 = 0 then ⌊r⌋ else ⌊r⌋ + 1

/-- The binary64 value nearest to `q`, ties to even: a nonzero `q` with
`2^k ≤ |q| < 2^(k+1)` is rounded to the nearest multiple of `2^(k-52)`, which gives a
significand of 53 bits. -/
def roundDouble (q : ℚ) : ℚ :=
  if q = 0 then 0
  else (roundHalfEven (q / 2 ^ (Int.log 2 |q| - 52)) : ℚ) * 2 ^ (Int.log 2 |q| - 52)

/-- The relative time in seconds of line 497, `startTime.msecsTo(now) / 1000.0`: the `qint64`
millisecond count is converted to `double` and divided by the double 1000. -/
def relativeTime (startTime now : Int) : ℚ :=
  roundDouble (roundDouble ((now - startTime : Int) : ℚ) / 1000)

/-- The double `currentTime - MAX_DISPLAY_SECONDS` of lines 506 and 539: the `int` constant is
converted to `double` exactly and the difference is rounded. -/
def windowStart (currentTime : ℚ) : ℚ := roundDouble (currentTime - MAX_DISPLAY_SECONDS)

/-- MainWindow::updateChart, with the clock of line 497 read as `now`. -/
def updateChart (now : Int) (meanAccel meanGyro : Axis3 FloatBits) (s : State) : State :=
  let currentTime : ℚ := relativeTime s.startTime now
  let appended (series : Axis3 (List QPointF)) (mean : Axis3 FloatBits) :=
    Axis3.zipWith (fun pts v => pts ++ [(currentTime, v)]) series mean
  let minTime : ℚ := windowStart currentTime
  { s with
    accelSeries := (appended s.accelSeries meanAccel).map (evictOld minTime)
    gyroSeries := (appended s.gyroSeries meanGyro).map (evictOld minTime)
    axisX := if currentTime > MAX_DISPLAY_SECONDS
      then (windowStart currentTime, currentTime)
      else (0, MAX_DISPLAY_SECONDS) }

/-! ## Recorder (lines 368-404 and 452-475) -/

/-- MainWindow::saveDataToFile, with the UTC clock of line 456 read as `utcNow`. -/
def saveDataToFile (utcNow : Int) (s : State) : State :=
  match s.fileStream with
  | none => s
  | some stream =>
    if !s.isSaving || !s.dataValid then s
    else
      let written := stream.written ++ [(utcNow, s.imuData)]
      let flushedAt :=
        if s.validFramesReceived % 100 = 0 then stream.flushedAt ++ [written.length]
        else stream.flushedAt
      { s with fileStream := some ⟨written, flushedAt⟩ }

/-- MainWindow::startSaving (lines 368-404); `opened` is the result of `saveFile->open`.
The timers and the button text are not part of the state. -/
def startSaving (opened : Bool) (s : State) : State :=
  if opened then { s with fileStream := some ⟨[], []⟩, isSaving := true } else s

/-! ## Frame synchronizer (lines 213-366 and 622-658) -/

/-- The test `memcmp(buf.constData() + pos, pat, n) == 0`; `none` when bytes `[pos, pos + n)`
are not all inside the buffer. -/
def memcmpEq (buf : List Byte) (pos : Nat) (pat : List Byte) (n : Nat) : Option Bool :=
  if pos + n ≤ buf.length then some (decide ((buf.drop pos).take n = pat.take n)) else none

/-- The copy `memcpy(dst, buf.constData() + pos, n)`; `none` when it would read outside. -/
def memcpyFrom (buf : List Byte) (pos n : Nat) : Option (List Byte) :=
  if pos + n ≤ buf.length then some ((buf.drop pos).take n) else none

/-- How the scan loop of lines 224-357 is left. -/
inductive Scan where
  | found (i : Nat)
  | needMore (i : Nat)
  | exhausted
  | fault
deriving DecidableEq, Repr

/-- The loop `for (i = ...; i <= searchLimit; ++i)` of line 224 entered at index `i` with
`remaining` iterations left: `found i` when line 240 is reached, `needMore i` when the branch of
line 229 is taken, `exhausted` when the loop runs out. -/
def scanFrom (buf : List Byte) : Nat → Nat → Scan
  | 0, _ => Scan.exhausted
  | remaining + 1, i =>
    match memcmpEq buf i HEAD_PATTERN HEAD_SIZE with
    | none => Scan.fault
    | some false => scanFrom buf remaining (i + 1)
    | some true =>
      if i + FRAME_SIZE > buf.length then Scan.needMore i
      else
        match memcmpEq buf (i + HEAD_SIZE + DATA_SIZE) TAIL_PATTERN TAIL_SIZE with
        | none => Scan.fault
        | some false => scanFrom buf remaining (i + 1)
        | some true => Scan.found i

/-- Lines 288-297: the frequency estimate and the arrival time. -/
def updateFrequency (now : Int) (s : State) : State :=
  let frequency : ℚ :=
    match s.lastFrameTime with
    | some last =>
      let delta : Int := now - last
      if delta > 0 then 1000 / (delta : ℚ) else s.actualFrequency
    | none => s.actualFrequency
  { s with
    actualFrequency := frequency
    lastFrameTime := some now
    framesSinceLastDisplay := s.framesSinceLastDisplay + 1 }

/-- Lines 241-276: decode the payload into `imuData`, compute the means, mark the data valid;
the copied payload is appended to the observation log. -/
def storeReadings (fp : FloatOps) (payload : List Byte) (s : State) : State :=
  let imu := decodePayload payload
  let m := means fp imu
  { s with
    imuData := imu
    dataValid := true
    lastMeanAccel := m.1
    lastMeanGyro := m.2
    extracted := s.extracted ++ [payload] }

/-- Lines 277-282: the chart downsampling counter. -/
def chartTick (now : Int) (s : State) : State :=
  let s1 : State := { s with chartUpdateCounter := s.chartUpdateCounter + 1 }
  if s1.chartUpdateCounter ≥ Chart_FPS then
    { updateChart now s1.lastMeanAccel s1.lastMeanGyro s1 with chartUpdateCounter := 0 }
  else s1

/-- Lines 241-297 for an accepted frame whose 216 payload bytes are `payload`. -/
def acceptFrame (fp : FloatOps) (clock : Clock) (payload : List Byte) (s : State) : State :=
  updateFrequency clock.frameNow
    (saveDataToFile clock.saveNow (chartTick clock.chartNow (storeReadings fp payload s)))

/-- MainWindow::parseReceivedData.  The result is the returned code (0: a frame was parsed,
1: more data needed) and the new state, or `none` if a read left the buffer. -/
def parseReceivedData (fp : FloatOps) (clock : Clock) (s : State) : Option (Int × State) :=
  if s.receiveBuffer.length < FRAME_SIZE then some (1, s)
  else
    let searchLimit := s.receiveBuffer.length - HEAD_SIZE
    match scanFrom s.receiveBuffer (searchLimit + 1) 0 with
    | Scan.fault => none
    | Scan.needMore i =>
      some (1, if i > 0 then { s with receiveBuffer := s.receiveBuffer.drop i } else s)
    | Scan.found i =>
      let dataStart := i + HEAD_SIZE
      match memcpyFrom s.receiveBuffer dataStart (IMU_COUNT * DATA_PER_IMU * FLOAT_SIZE) with
      | none => none
      | some payload =>
        some (0, { acceptFrame fp clock payload s with
                   receiveBuffer := s.receiveBuffer.drop (i + FRAME_SIZE) })
    | Scan.exhausted =>
      some (1,
        if s.receiveBuffer.length > FRAME_SIZE - 1 then
          let keep := FRAME_SIZE - 1
          { s with receiveBuffer := s.receiveBuffer.drop (s.receiveBuffer.length - keep) }
        else s)

/-- The overflow guard of lines 649-656; `true` in the first component means `break`. -/
def overflowGuard (s : State) : Bool × State :=
  if s.receiveBuffer.length > FRAME_SIZE * 3 then
    (true, { s with receiveBuffer := [], invalidFramesReceived := s.invalidFramesReceived + 1 })
  else (false, s)

/-- The `while` loop of lines 634-657 with `remaining = MAX_PARSE_PER_CALL - parseCount`.
The call of parseReceivedData made when `parseCount` frames have been parsed in this
invocation observes `clock parseCount`.  parseReceivedData returns only 0 or 1, so the last
branch (neither code) is never taken. -/
def parseLoop (fp : FloatOps) (clock : Nat → Clock) : Nat → Nat → State → Option State
  | 0, _, s => some s
  | remaining + 1, parseCount, s =>
    if s.receiveBuffer.length ≥ FRAME_SIZE then
      match parseReceivedData fp (clock parseCount) s with
      | none => none
      | some (result, s1) =>
        if result = 0 then
          let s2 := { s1 with validFramesReceived := s1.validFramesReceived + 1 }
          match overflowGuard s2 with
          | (true, s3) => some s3
          | (false, s3) => parseLoop fp clock remaining (parseCount + 1) s3
        else if result = 1 then some s1
        else
          match overflowGuard s1 with
          | (true, s3) => some s3
          | (false, s3) => parseLoop fp clock remaining parseCount s3
    else some s

/-- MainWindow::onSerialDataReceived with `serialcheck->readAll()` returning `newData`. -/
def onSerialDataReceived (fp : FloatOps) (clock : Nat → Clock) (s : State)
    (newData : List Byte) : Option State :=
  let s1 : State :=
    { s with
      totalBytesReceived := s.totalBytesReceived + newData.length
      receiveBuffer := s.receiveBuffer ++ newData }
  parseLoop fp clock MAX_PARSE_PER_CALL 0 s1

/-! ## Driving the handler -/

/-- Successive invocations of onSerialDataReceived, one per chunk; invocation number `c`
observes the clock `clock c`. -/
def feed (fp : FloatOps) : (Nat → Nat → Clock) → State → List (List Byte) → Option State
  | _, s, [] => some s
  | clock, s, chunk :: rest =>
    match onSerialDataReceived fp (clock 0) s chunk with
    | none => none
    | some s1 => feed fp (fun c => clock (c + 1)) s1 rest

/-- A frame on the wire: header, payload, tail (lines 6-9 and mainwindow.h line 90). -/
def frame (payload : List Byte) : List Byte := HEAD_PATTERN ++ payload ++ TAIL_PATTERN

/-! ## Vocabulary of the statements -/

/-- No header literal starts at any index of the buffer. -/
def NoHead (buf : List Byte) : Prop := ∀ j, (buf.drop j).take 2 ≠ HEAD_PATTERN

/-- The state after a call of parseReceivedData that accepted `payload`, left `rest` in the
buffer, and after the increment of line 640. -/
def afterFrame (fp : FloatOps) (clock : Clock) (payload rest : List Byte) (s : State) : State :=
  let s1 : State := { acceptFrame fp clock payload s with receiveBuffer := rest }
  { s1 with validFramesReceived := s1.validFramesReceived + 1 }

/-- The little-endian 32-bit word at byte offset `off` of the payload. -/
def wordAt (payload : List Byte) (off : Nat) : FloatBits :=
  leWord (payload.getD off 0) (payload.getD (off + 1) 0) (payload.getD (off + 2) 0)
    (payload.getD (off + 3) 0)

/-- The four bytes of a 32-bit pattern, least significant first. -/
def leBytes (w : FloatBits) : List Byte :=
  [Fin.ofNat (w % 256), Fin.ofNat (w / 256 % 256), Fin.ofNat (w / 65536 % 256),
   Fin.ofNat (w / 16777216 % 256)]

/-- The 24 bytes of one reading in the documented wire layout: accel x, y, z then
gyro x, y, z, each a little-endian float32. -/
def encodeReading (r : IMUData) : List Byte :=
  leBytes r.accel.x ++ leBytes r.accel.y ++ leBytes r.accel.z ++
  leBytes r.gyro.x ++ leBytes r.gyro.y ++ leBytes r.gyro.z

/-- Re-encoding of decoded readings in the documented wire layout (reading `k` at offset
`24 * k`).  The program has no encoder; this is the test-side inverse the round trip is
stated against. -/
def encodePayload (readings : List IMUData) : List Byte :=
  (readings.map encodeReading).flatten

/-- One chart emission: the clock reading of line 497 and the two mean arrays passed in. -/
abbrev Emission := Int × Axis3 FloatBits × Axis3 FloatBits

/-- Successive calls of updateChart, one per emission, oldest first. -/
def emitAll (s : State) (es : List Emission) : State :=
  es.foldl (fun st e => updateChart e.1 e.2.1 e.2.2 st) s

/-- The six curves: accel x, y, z then gyro x, y, z. -/
def curves (s : State) : List (List QPointF) := s.accelSeries.toList ++ s.gyroSeries.toList

/-- For each of the six curves, every point ever emitted to it, oldest first. -/
def emittedCurves (start : Int) (es : List Emission) : List (List QPointF) :=
  [es.map (fun e => (relativeTime start e.1, e.2.1.x)),
   es.map (fun e => (relativeTime start e.1, e.2.1.y)),
   es.map (fun e => (relativeTime start e.1, e.2.1.z)),
   es.map (fun e => (relativeTime start e.1, e.2.2.x)),
   es.map (fun e => (relativeTime start e.1, e.2.2.y)),
   es.map (fun e => (relativeTime start e.1, e.2.2.z))]

/-- The effect of a run of emissions on a single series. -/
def seriesFold (pts0 : List QPointF) (new : List QPointF) : List QPointF :=
  new.foldl (fun pts pt => evictOld (windowStart pt.1) (pts ++ [pt])) pts0

/-- What one run of the extraction loop may change: `new` frames were extracted, the
valid-frame counter grew by their number, and the invalid-frame counter either kept its value
or grew by one in a run that extracted a frame and left the buffer cleared. -/
def LoopEffect (s s' : State) (new : List (List Byte)) : Prop :=
  s'.extracted = s.extracted ++ new ∧
  s'.validFramesReceived = s.validFramesReceived + new.length ∧
  (s'.invalidFramesReceived = s.invalidFramesReceived ∨
    (s'.invalidFramesReceived = s.invalidFramesReceived + 1 ∧ 0 < new.length ∧
      s'.receiveBuffer = []))

/-- A recording session that started when `v0` valid frames had been counted and `e0` frames
logged: saving is on, the stream holds one row per frame decoded since, with the readings of
that frame, and row `j + 1` was followed by a flush exactly when the valid-frame counter read
`v0 + j`, a multiple of 100, while the row was written. -/
def Recording (v0 e0 : Nat) (s : State) : Prop :=
  s.isSaving = true ∧ e0 ≤ s.extracted.length ∧
  ∃ stream, s.fileStream = some stream ∧
    s.validFramesReceived = v0 + stream.written.length ∧
    stream.written.map Prod.snd = (s.extracted.drop e0).map decodePayload ∧
    stream.flushedAt =
      ((List.range stream.written.length).filter (fun j => (v0 + j) % 100 = 0)).map (· + 1)

/-- A decoded frame as the chart sees it: the clock readings of the parseReceivedData call
that accepted it, and its payload. -/
abbrev DecodedFrame := Clock × List Byte

/-- The call of updateChart made when the test of line 278 succeeds on frame `f`: the clock
of line 497 and the means of the nine readings of this frame. -/
def emissionOf (fp : FloatOps) (f : DecodedFrame) : Emission :=
  (f.1.chartNow, (means fp (decodePayload f.2)).1, (means fp (decodePayload f.2)).2)

/-- The entries at positions Chart_FPS, 2 * Chart_FPS, ... of a list, counting from 1. -/
def everyTenth {α : Type} (fs : List α) : List α :=
  (fs.enum.filter (fun x => decide ((x.1 + 1) % Chart_FPS = 0))).map Prod.snd

/-- The chart after some run that decoded the frames `fs`, in this order, from state `s0`:
the counter is the number of frames modulo Chart_FPS and the series are those produced by
calling updateChart for every tenth frame only. -/
def ChartTrace (fp : FloatOps) (s0 t : State) (fs : List DecodedFrame) : Prop :=
  t.extracted = s0.extracted ++ fs.map Prod.snd ∧
  t.validFramesReceived = s0.validFramesReceived + fs.length ∧
  t.chartUpdateCounter = fs.length % Chart_FPS ∧
  t.startTime = s0.startTime ∧
  t.accelSeries = (emitAll s0 ((everyTenth fs).map (emissionOf fp))).accelSeries ∧
  t.gyroSeries = (emitAll s0 ((everyTenth fs).map (emissionOf fp))).gyroSeries

/-- Numbers with a significand of at most 53 bits are binary64 values (exponent range
unbounded, as in `roundDouble`). -/
def Representable (q : ℚ) : Prop := ∃ n e : ℤ, |n| < 2 ^ (53 : ℕ) ∧ q = n * 2 ^ e

/-! ## Sample values used to evaluate the embedding -/

/-- A stand-in for single precision arithmetic, used to evaluate the embedding. -/
def sampleOps : FloatOps := ⟨fun a b => (a + b) % 4294967296, fun a => a / IMU_COUNT⟩

/-- A clock for evaluation: invocation `c`, parse call `n` observes `1000 * c + 10 * n` ms. -/
def sampleClock : Nat → Nat → Clock :=
  fun c n => ⟨1000 * c + 10 * n, 1000 * c + 10 * n, 1000 * c + 10 * n⟩

/-- The payload with bytes 0, 1, ..., 215. -/
def samplePayload : List Byte := (List.range 216).map (fun i => Fin.ofNat i)

/-- A payload in which the header literal AA 55 occurs at offset 1. -/
def headerPayload : List Byte := [0x01, 0xAA, 0x55] ++ List.replicate 213 0x02

/-- Garbage without the header literal that ends in the first header byte. -/
def sampleGarbage : List Byte := [0x07, 0x55, 0xAA, 0xAA]

/-- The constructor state with the receive buffer set to `buf`. -/
def sampleState (buf : List Byte) : State := { State.init 0 with receiveBuffer := buf }

/-- Noise for the overflow scenario: 3 * 222 + 1 bytes, none of them a header byte. -/
def sampleNoise : List Byte := List.replicate 667 0x07

/-- A state whose buffer holds one sample frame and whose last frame arrived at 1000 ms. -/
def sampleTimedState : State :=
  { State.init 0 with
    receiveBuffer := frame samplePayload
    lastFrameTime := some 1000
    actualFrequency := 50 }

/-- The clock readings of a frame accepted at 1010 ms. -/
def sampleFrameClock : Clock := ⟨1010, 1010, 1010⟩

/-- Mean values for the sample emissions. -/
def sampleMean : Axis3 FloatBits := ⟨1, 2, 3⟩

/-- Emissions at 0 s, 5 s and 12 s after the chart start. -/
def sampleEarlier : List Emission :=
  [(0, sampleMean, sampleMean), (5000, sampleMean, sampleMean), (12000, sampleMean, sampleMean)]

/-- The emission at 15 s after the chart start. -/
def sampleLatest : Emission := (15000, sampleMean, sampleMean)

/-- A chart start time 10002 ms after the first clock reading below (a clock set back). -/
def sampleLateStart : State := State.init 10002

/-- An emission at clock 0 ms. -/
def sampleBackdated : List Emission := [(0, sampleMean, sampleMean)]

/-- An emission at clock 10000 ms. -/
def sampleBackdatedLatest : Emission := (10000, sampleMean, sampleMean)

/-- A state whose buffer holds the sample garbage followed by one sample frame. -/
def sampleBuffered : State := sampleState (sampleGarbage ++ frame samplePayload)

/-- The state parseReceivedData leaves when it accepts the frame of `sampleBuffered`. -/
def sampleParsed : State :=
  { acceptFrame sampleOps (sampleClock 0 0) samplePayload sampleBuffered with
    receiveBuffer := [] }

/-- The state parseReceivedData leaves when it accepts the frame of `sampleTimedState`. -/
def sampleTimedParsed : State :=
  { acceptFrame sampleOps sampleFrameClock samplePayload sampleTimedState with
    receiveBuffer := [] }

/-! ## Constants and field lemmas -/

theorem FRAME_SIZE_eq : FRAME_SIZE = 222 := rfl
theorem HEAD_SIZE_eq : HEAD_SIZE = 2 := rfl
theorem DATA_SIZE_eq : DATA_SIZE = 216 := rfl
theorem TAIL_SIZE_eq : TAIL_SIZE = 4 := rfl

theorem take_two_drop_eq (L : List Byte) (j : Nat) (a b : Byte) :
    (L.drop j).take 2 = [a, b] ↔ L[j]? = some a ∧ L[j + 1]? = some b := by
  have h0 : (L.drop j)[0]? = L[j]? := by simp [List.getElem?_drop]
  have h1 : (L.drop j)[1]? = L[j + 1]? := by simp [List.getElem?_drop]
  rw [← h0, ← h1]
  rcases L.drop j with _ | ⟨x, _ | ⟨y, t⟩⟩ <;> simp

theorem memcmpEq_head (buf : List Byte) (i : Nat) (h : i + 2 ≤ buf.length) :
    memcmpEq buf i HEAD_PATTERN HEAD_SIZE = some (decide ((buf.drop i).take 2 = HEAD_PATTERN)) := by
  simp [memcmpEq, HEAD_SIZE_eq, h, HEAD_PATTERN]

theorem scanFrom_skip (buf : List Byte) (k : Nat) :
    ∀ (m i : Nat), i + k + 1 ≤ buf.length →
      (∀ j, i ≤ j → j < i + k → (buf.drop j).take 2 ≠ HEAD_PATTERN) →
      scanFrom buf (k + m) i = scanFrom buf m (i + k) := by
  induction k with
  | zero => intro m i _ _; simp
  | succ k ih =>
    intro m i hlen hno
    have hk : k + 1 + m = (k + m) + 1 := by omega
    rw [hk, scanFrom, memcmpEq_head buf i (by omega)]
    have := hno i (le_refl _) (by omega)
    simp only [this, decide_False]
    rw [ih m (i + 1) (by omega) (fun j h1 h2 => hno j (by omega) (by omega))]
    congr 1; omega

theorem scanFrom_found (buf : List Byte) (m i : Nat)
    (hh : (buf.drop i).take 2 = HEAD_PATTERN) (hlen : i + FRAME_SIZE ≤ buf.length)
    (ht : (buf.drop (i + 218)).take 4 = TAIL_PATTERN) :
    scanFrom buf (m + 1) i = Scan.found i := by
  rw [FRAME_SIZE_eq] at hlen
  rw [scanFrom, memcmpEq_head buf i (by omega)]
  simp only [hh, decide_True, FRAME_SIZE_eq]
  rw [if_neg (by omega)]
  simp [memcmpEq, HEAD_SIZE_eq, DATA_SIZE_eq, TAIL_SIZE_eq, ht, TAIL_PATTERN]
  rw [if_pos (by omega)]

theorem scanFrom_needMore (buf : List Byte) (m i : Nat)
    (hh : (buf.drop i).take 2 = HEAD_PATTERN) (hlen : buf.length < i + FRAME_SIZE) :
    scanFrom buf (m + 1) i = Scan.needMore i := by
  have h2 : i + 2 ≤ buf.length := by
    by_contra hc
    have : ((buf.drop i).take 2).length = 2 := by rw [hh]; rfl
    simp at this; omega
  rw [scanFrom, memcmpEq_head buf i h2]
  simp only [hh, decide_True]
  rw [if_pos (by omega)]

theorem storeReadings_fields (fp : FloatOps) (p : List Byte) (s : State) :
    (storeReadings fp p s).receiveBuffer = s.receiveBuffer ∧
    (storeReadings fp p s).imuData = decodePayload p ∧
    (storeReadings fp p s).validFramesReceived = s.validFramesReceived ∧
    (storeReadings fp p s).invalidFramesReceived = s.invalidFramesReceived ∧
    (storeReadings fp p s).extracted = s.extracted ++ [p] ∧
    (storeReadings fp p s).lastFrameTime = s.lastFrameTime ∧
    (storeReadings fp p s).actualFrequency = s.actualFrequency :=
  ⟨rfl, rfl, rfl, rfl, rfl, rfl, rfl⟩

theorem chartTick_fields (t : Int) (s : State) :
    (chartTick t s).receiveBuffer = s.receiveBuffer ∧
    (chartTick t s).imuData = s.imuData ∧
    (chartTick t s).validFramesReceived = s.validFramesReceived ∧
    (chartTick t s).invalidFramesReceived = s.invalidFramesReceived ∧
    (chartTick t s).extracted = s.extracted ∧
    (chartTick t s).lastFrameTime = s.lastFrameTime ∧
    (chartTick t s).actualFrequency = s.actualFrequency := by
  unfold chartTick
  dsimp only
  split <;> exact ⟨rfl, rfl, rfl, rfl, rfl, rfl, rfl⟩

theorem saveDataToFile_fields (t : Int) (s : State) :
    (saveDataToFile t s).receiveBuffer = s.receiveBuffer ∧
    (saveDataToFile t s).imuData = s.imuData ∧
    (saveDataToFile t s).validFramesReceived = s.validFramesReceived ∧
    (saveDataToFile t s).invalidFramesReceived = s.invalidFramesReceived ∧
    (saveDataToFile t s).extracted = s.extracted ∧
    (saveDataToFile t s).lastFrameTime = s.lastFrameTime ∧
    (saveDataToFile t s).actualFrequency = s.actualFrequency := by
  unfold saveDataToFile
  split
  · exact ⟨rfl, rfl, rfl, rfl, rfl, rfl, rfl⟩
  · split <;> exact ⟨rfl, rfl, rfl, rfl, rfl, rfl, rfl⟩

theorem updateFrequency_fields (t : Int) (s : State) :
    (updateFrequency t s).receiveBuffer = s.receiveBuffer ∧
    (updateFrequency t s).imuData = s.imuData ∧
    (updateFrequency t s).validFramesReceived = s.validFramesReceived ∧
    (updateFrequency t s).invalidFramesReceived = s.invalidFramesReceived ∧
    (updateFrequency t s).extracted = s.extracted :=
  ⟨rfl, rfl, rfl, rfl, rfl⟩

theorem acceptFrame_fields (fp : FloatOps) (c : Clock) (p : List Byte) (s : State) :
    (acceptFrame fp c p s).receiveBuffer = s.receiveBuffer ∧
    (acceptFrame fp c p s).imuData = decodePayload p ∧
    (acceptFrame fp c p s).validFramesReceived = s.validFramesReceived ∧
    (acceptFrame fp c p s).invalidFramesReceived = s.invalidFramesReceived ∧
    (acceptFrame fp c p s).extracted = s.extracted ++ [p] := by
  unfold acceptFrame
  simp only [updateFrequency_fields, saveDataToFile_fields, chartTick_fields,
    storeReadings_fields, and_self]

theorem acceptFrame_time (fp : FloatOps) (c : Clock) (p : List Byte) (s : State) :
    (acceptFrame fp c p s).lastFrameTime = some c.frameNow ∧
    (acceptFrame fp c p s).actualFrequency =
      (match s.lastFrameTime with
       | some last => if c.frameNow - last > 0 then 1000 / ((c.frameNow - last : Int) : ℚ)
                      else s.actualFrequency
       | none => s.actualFrequency) := by
  unfold acceptFrame
  refine ⟨rfl, ?_⟩
  show (updateFrequency _ _).actualFrequency = _
  unfold updateFrequency
  simp only [saveDataToFile_fields, chartTick_fields, storeReadings_fields]

/-! ## The scan loop and parseReceivedData on an arbitrary buffer -/

theorem scanFrom_spec (buf : List Byte) :
    ∀ (n i : Nat), i + n + 1 ≤ buf.length →
      match scanFrom buf n i with
      | Scan.found j =>
          i ≤ j ∧ j < i + n ∧ j + FRAME_SIZE ≤ buf.length ∧
          (buf.drop j).take 2 = HEAD_PATTERN ∧ (buf.drop (j + 218)).take 4 = TAIL_PATTERN ∧
          ∀ k, i ≤ k → k < j →
            ¬ ((buf.drop k).take 2 = HEAD_PATTERN ∧ (buf.drop (k + 218)).take 4 = TAIL_PATTERN)
      | Scan.needMore j =>
          i ≤ j ∧ j < i + n ∧ buf.length < j + FRAME_SIZE ∧ (buf.drop j).take 2 = HEAD_PATTERN
      | Scan.exhausted => True
      | Scan.fault => False := by
  intro n
  induction n with
  | zero => intro i _; simp [scanFrom]
  | succ n ih =>
    intro i hlen
    have hrec := ih (i + 1) (by omega)
    rw [scanFrom, memcmpEq_head buf i (by omega)]
    by_cases hh : (buf.drop i).take 2 = HEAD_PATTERN
    · rw [decide_eq_true hh]
      dsimp only
      by_cases hfull : i + FRAME_SIZE > buf.length
      · rw [if_pos hfull]
        exact ⟨le_refl _, by omega, hfull, hh⟩
      · rw [if_neg hfull]
        have hfull2 : i + 222 ≤ buf.length := by rw [FRAME_SIZE_eq] at hfull; omega
        have hm : memcmpEq buf (i + HEAD_SIZE + DATA_SIZE) TAIL_PATTERN TAIL_SIZE
            = some (decide ((buf.drop (i + 218)).take 4 = TAIL_PATTERN)) := by
          simp only [memcmpEq, HEAD_SIZE_eq, DATA_SIZE_eq, TAIL_SIZE_eq]
          rw [if_pos (by omega)]
          simp [TAIL_PATTERN]
        rw [hm]
        by_cases ht : (buf.drop (i + 218)).take 4 = TAIL_PATTERN
        · rw [decide_eq_true ht]
          dsimp only
          refine ⟨le_refl _, by omega, by rw [FRAME_SIZE_eq]; omega, hh, ht, ?_⟩
          intro k h1 h2; omega
        · rw [decide_eq_false ht]
          dsimp only
          revert hrec
          cases scanFrom buf n (i + 1) with
          | found j =>
            rintro ⟨h1, h2, h3, h4, h5, h6⟩
            refine ⟨by omega, by omega, h3, h4, h5, ?_⟩
            intro k hk1 hk2
            by_cases hki : k = i
            · subst hki; exact fun h => ht h.2
            · exact h6 k (by omega) hk2
          | needMore j =>
            rintro ⟨h1, h2, h3, h4⟩
            exact ⟨by omega, by omega, h3, h4⟩
          | exhausted => intro _; trivial
          | fault => intro h; exact h
    · rw [decide_eq_false hh]
      dsimp only
      revert hrec
      cases scanFrom buf n (i + 1) with
      | found j =>
        rintro ⟨h1, h2, h3, h4, h5, h6⟩
        refine ⟨by omega, by omega, h3, h4, h5, ?_⟩
        intro k hk1 hk2
        by_cases hki : k = i
        · subst hki; exact fun h => hh h.1
        · exact h6 k (by omega) hk2
      | needMore j =>
        rintro ⟨h1, h2, h3, h4⟩
        exact ⟨by omega, by omega, h3, h4⟩
      | exhausted => intro _; trivial
      | fault => intro h; exact h

theorem parseReceivedData_spec (fp : FloatOps) (clock : Clock) (s : State) :
    (∃ b, parseReceivedData fp clock s = some (1, { s with receiveBuffer := b }) ∧
        b.length < FRAME_SIZE ∧ ∃ d, b = s.receiveBuffer.drop d) ∨
    (∃ i, i + FRAME_SIZE ≤ s.receiveBuffer.length ∧
        (s.receiveBuffer.drop i).take 2 = HEAD_PATTERN ∧
        (s.receiveBuffer.drop (i + 218)).take 4 = TAIL_PATTERN ∧
        (∀ k, k < i → ¬ ((s.receiveBuffer.drop k).take 2 = HEAD_PATTERN ∧
            (s.receiveBuffer.drop (k + 218)).take 4 = TAIL_PATTERN)) ∧
        parseReceivedData fp clock s =
          some (0, { acceptFrame fp clock ((s.receiveBuffer.drop (i + 2)).take 216) s with
                     receiveBuffer := s.receiveBuffer.drop (i + 222) })) := by
  unfold parseReceivedData
  by_cases hshort : s.receiveBuffer.length < FRAME_SIZE
  · left
    refine ⟨s.receiveBuffer, ?_, hshort, 0, by simp⟩
    rw [if_pos hshort]
  · rw [if_neg hshort]
    have hlen : 222 ≤ s.receiveBuffer.length := by rw [FRAME_SIZE_eq] at hshort; omega
    have hspec := scanFrom_spec s.receiveBuffer (s.receiveBuffer.length - HEAD_SIZE + 1) 0
      (by rw [HEAD_SIZE_eq]; omega)
    revert hspec
    dsimp only
    cases scanFrom s.receiveBuffer (s.receiveBuffer.length - HEAD_SIZE + 1) 0 with
    | fault => intro h; exact h.elim
    | needMore j =>
      rintro ⟨_, _, h3, _⟩
      left
      refine ⟨s.receiveBuffer.drop j, ?_, by simp; rw [FRAME_SIZE_eq] at *; omega, j, rfl⟩
      dsimp only
      by_cases hj : j > 0
      · rw [if_pos hj]
      · rw [if_neg hj]
        have : j = 0 := by omega
        subst this
        simp
    | found j =>
      rintro ⟨_, _, h3, h4, h5, h6⟩
      right
      refine ⟨j, h3, h4, h5, fun k hk => h6 k (Nat.zero_le _) hk, ?_⟩
      dsimp only
      rw [FRAME_SIZE_eq] at h3
      have : memcpyFrom s.receiveBuffer (j + HEAD_SIZE) (IMU_COUNT * DATA_PER_IMU * FLOAT_SIZE)
          = some ((s.receiveBuffer.drop (j + 2)).take 216) := by
        unfold memcpyFrom
        rw [if_pos (by simp only [HEAD_SIZE_eq, IMU_COUNT, DATA_PER_IMU, FLOAT_SIZE]; omega)]
        rfl
      rw [this]
      rfl
    | exhausted =>
      intro _
      left
      refine ⟨s.receiveBuffer.drop (s.receiveBuffer.length - (FRAME_SIZE - 1)), ?_, ?_, _, rfl⟩
      · dsimp only
        rw [if_pos (by rw [FRAME_SIZE_eq]; omega)]
      · simp only [List.length_drop, FRAME_SIZE_eq]; omega

theorem parseLoop_bound (fp : FloatOps) (clock : Nat → Clock) :
    ∀ (n c : Nat) (s : State), (n = 0 → s.receiveBuffer.length ≤ FRAME_SIZE * 3) →
      ∃ s', parseLoop fp clock n c s = some s' ∧ s'.receiveBuffer.length ≤ FRAME_SIZE * 3 := by
  intro n
  induction n with
  | zero => intro c s h; exact ⟨s, rfl, h rfl⟩
  | succ n ih =>
    intro c s _
    rw [parseLoop]
    by_cases hlen : s.receiveBuffer.length ≥ FRAME_SIZE
    · rw [if_pos hlen]
      rcases parseReceivedData_spec fp (clock c) s with ⟨b, hp, hb, _⟩ | ⟨i, _, _, _, _, hp⟩
      · rw [hp]
        refine ⟨_, rfl, ?_⟩
        show b.length ≤ FRAME_SIZE * 3
        omega
      · rw [hp]
        dsimp only
        rw [if_pos rfl]
        unfold overflowGuard
        dsimp only
        by_cases hov : (s.receiveBuffer.drop (i + 222)).length > FRAME_SIZE * 3
        · rw [if_pos hov]
          exact ⟨_, rfl, by simp⟩
        · rw [if_neg hov]
          exact ih (c + 1) _ (fun _ => by dsimp only; omega)
    · rw [if_neg hlen]
      exact ⟨s, rfl, by omega⟩

/-! ## parseReceivedData on a buffer of known shape -/

theorem frame_cons (p : List Byte) : frame p = 0xAA :: 0x55 :: (p ++ TAIL_PATTERN) := rfl

theorem frame_length (p : List Byte) (hp : p.length = 216) : (frame p).length = 222 := by
  simp [frame_cons, TAIL_PATTERN, hp]

theorem noHead_before (g : List Byte) (a : Byte) (rest : List Byte)
    (h : NoHead (g ++ [a])) (j : Nat) (hj : j < g.length) :
    ((g ++ a :: rest).drop j).take 2 ≠ HEAD_PATTERN := by
  intro hc
  apply h j
  unfold HEAD_PATTERN at *
  rw [take_two_drop_eq] at hc ⊢
  obtain ⟨h0, h1⟩ := hc
  constructor
  · rw [List.getElem?_append_left hj] at h0 ⊢
    exact h0
  · by_cases hj1 : j + 1 < g.length
    · rw [List.getElem?_append_left hj1] at h1 ⊢
      exact h1
    · have : j + 1 = g.length := by omega
      rw [this] at h1 ⊢
      rw [List.getElem?_append_right (le_refl _)] at h1 ⊢
      simpa using h1

theorem noHead_nil_cons (a : Byte) : NoHead ([] ++ [a]) := by
  intro j hc
  have : ((([] : List Byte) ++ [a]).drop j).take 2 = HEAD_PATTERN → False := by
    cases j <;> simp [HEAD_PATTERN]
  exact this hc

theorem parse_frame (fp : FloatOps) (clock : Clock) (s : State) (g p r : List Byte)
    (hp : p.length = 216) (hg : NoHead (g ++ [0xAA]))
    (hbuf : s.receiveBuffer = g ++ frame p ++ r) :
    parseReceivedData fp clock s =
      some (0, { acceptFrame fp clock p s with receiveBuffer := r }) := by
  have hlen : s.receiveBuffer.length = g.length + 222 + r.length := by
    rw [hbuf]; simp [frame_length p hp]; omega
  have hshape : s.receiveBuffer = g ++ 0xAA :: (0x55 :: (p ++ TAIL_PATTERN) ++ r) := by
    rw [hbuf, frame_cons]; simp
  have hhead : (s.receiveBuffer.drop g.length).take 2 = HEAD_PATTERN := by
    rw [hshape, List.drop_left]; rfl
  have hdrop : ∀ k, s.receiveBuffer.drop (g.length + k) = (frame p ++ r).drop k := by
    intro k; rw [hbuf, List.append_assoc, List.drop_append]
  have hsplit : frame p ++ r = (HEAD_PATTERN ++ p) ++ (TAIL_PATTERN ++ r) := by
    simp [frame]
  have htail : (s.receiveBuffer.drop (g.length + 218)).take 4 = TAIL_PATTERN := by
    rw [hdrop, hsplit, List.drop_left' (by simp [HEAD_PATTERN, hp])]
    rfl
  have hpay : (s.receiveBuffer.drop (g.length + 2)).take 216 = p := by
    rw [hdrop, frame_cons]
    simp only [List.cons_append, List.drop_succ_cons, List.drop_zero, List.append_assoc]
    rw [List.take_left' hp]
  have hrest : s.receiveBuffer.drop (g.length + 222) = r := by
    rw [hdrop, List.drop_left' (frame_length p hp)]
  have hscan : scanFrom s.receiveBuffer (s.receiveBuffer.length - HEAD_SIZE + 1) 0
      = Scan.found g.length := by
    have e : s.receiveBuffer.length - HEAD_SIZE + 1 = g.length + (220 + r.length + 1) := by
      rw [HEAD_SIZE_eq]; omega
    rw [e, scanFrom_skip s.receiveBuffer g.length _ 0 (by omega)
      (fun j _ hj => by rw [hshape]; exact noHead_before g _ _ hg j (by omega))]
    rw [Nat.zero_add]
    exact scanFrom_found _ _ _ hhead (by rw [FRAME_SIZE_eq]; omega) htail
  unfold parseReceivedData
  rw [if_neg (by rw [FRAME_SIZE_eq]; omega)]
  dsimp only
  rw [hscan]
  dsimp only
  have : memcpyFrom s.receiveBuffer (g.length + HEAD_SIZE) (IMU_COUNT * DATA_PER_IMU * FLOAT_SIZE)
      = some p := by
    unfold memcpyFrom
    rw [if_pos (by simp only [HEAD_SIZE_eq, IMU_COUNT, DATA_PER_IMU, FLOAT_SIZE]; omega)]
    exact congrArg some hpay
  rw [this]
  dsimp only
  rw [FRAME_SIZE_eq, hrest]

theorem parse_incomplete (fp : FloatOps) (clock : Clock) (s : State) (g f : List Byte)
    (hg : NoHead (g ++ [0xAA])) (hf : f.take 2 = HEAD_PATTERN) (hflen : f.length < 222)
    (hbuf : s.receiveBuffer = g ++ f) (hlen : 222 ≤ s.receiveBuffer.length) :
    parseReceivedData fp clock s = some (1, { s with receiveBuffer := f }) := by
  have hlen2 : s.receiveBuffer.length = g.length + f.length := by rw [hbuf]; simp
  have hf2 : 2 ≤ f.length := by
    have : (f.take 2).length = 2 := by rw [hf]; rfl
    simp at this; omega
  obtain ⟨rest, hshape⟩ : ∃ rest, f = 0xAA :: rest := by
    rcases f with _ | ⟨a, _ | ⟨b, t⟩⟩
    · simp at hf2
    · simp at hf2
    · simp [HEAD_PATTERN] at hf; exact ⟨_, by rw [hf.1]⟩
  have hhead : (s.receiveBuffer.drop g.length).take 2 = HEAD_PATTERN := by
    rw [hbuf, List.drop_left]; exact hf
  have hscan : scanFrom s.receiveBuffer (s.receiveBuffer.length - HEAD_SIZE + 1) 0
      = Scan.needMore g.length := by
    have e : s.receiveBuffer.length - HEAD_SIZE + 1 = g.length + (f.length - 2 + 1) := by
      rw [HEAD_SIZE_eq]; omega
    rw [e, scanFrom_skip s.receiveBuffer g.length _ 0 (by omega)
      (fun j _ hj => by rw [hbuf, hshape]; exact noHead_before g _ _ hg j (by omega))]
    rw [Nat.zero_add]
    exact scanFrom_needMore _ _ _ hhead (by rw [FRAME_SIZE_eq]; omega)
  unfold parseReceivedData
  rw [if_neg (by rw [FRAME_SIZE_eq]; omega)]
  dsimp only
  rw [hscan]
  dsimp only
  by_cases hgl : g.length > 0
  · rw [if_pos hgl, hbuf, List.drop_left]
  · rw [if_neg hgl]
    have : g = [] := by
      cases g with
      | nil => rfl
      | cons a t => simp at hgl
    subst this
    rw [← (by simpa using hbuf : s.receiveBuffer = f)]

theorem parse_noHead (fp : FloatOps) (clock : Clock) (s : State)
    (h : NoHead s.receiveBuffer) (hlen : 222 ≤ s.receiveBuffer.length) :
    parseReceivedData fp clock s =
      some (1, { s with
                 receiveBuffer := s.receiveBuffer.drop (s.receiveBuffer.length - 221) }) := by
  have hscan : scanFrom s.receiveBuffer (s.receiveBuffer.length - HEAD_SIZE + 1) 0
      = Scan.exhausted := by
    have e : s.receiveBuffer.length - HEAD_SIZE + 1 = (s.receiveBuffer.length - 1) + 0 := by
      rw [HEAD_SIZE_eq]; omega
    rw [e, scanFrom_skip s.receiveBuffer _ 0 0 (by omega) (fun j _ _ => h j)]
    rfl
  unfold parseReceivedData
  rw [if_neg (by rw [FRAME_SIZE_eq]; omega)]
  dsimp only
  rw [hscan]
  dsimp only
  rw [if_pos (by rw [FRAME_SIZE_eq]; omega)]
  rfl

/-! ## The extraction loop and the chunk driver -/

theorem afterFrame_fields (fp : FloatOps) (c : Clock) (p r : List Byte) (s : State) :
    (afterFrame fp c p r s).receiveBuffer = r ∧
    (afterFrame fp c p r s).imuData = decodePayload p ∧
    (afterFrame fp c p r s).validFramesReceived = s.validFramesReceived + 1 ∧
    (afterFrame fp c p r s).invalidFramesReceived = s.invalidFramesReceived ∧
    (afterFrame fp c p r s).extracted = s.extracted ++ [p] := by
  unfold afterFrame
  simp only [acceptFrame_fields, and_self]

theorem NoHead_append_left (X Y : List Byte) (h : NoHead (X ++ Y)) : NoHead X := by
  intro j hc
  apply h j
  unfold HEAD_PATTERN at *
  rw [take_two_drop_eq] at hc ⊢
  obtain ⟨h0, h1⟩ := hc
  have l0 : j < X.length := by
    by_contra hn
    rw [List.getElem?_eq_none (by omega)] at h0
    exact Option.noConfusion h0
  have l1 : j + 1 < X.length := by
    by_contra hn
    rw [List.getElem?_eq_none (by omega)] at h1
    exact Option.noConfusion h1
  rw [List.getElem?_append_left l0, List.getElem?_append_left l1]
  exact ⟨h0, h1⟩

theorem NoHead_drop (L : List Byte) (d : Nat) (h : NoHead L) : NoHead (L.drop d) := by
  intro j hc
  apply h (d + j)
  rw [List.drop_drop] at hc
  exact hc

theorem parseLoop_short (fp : FloatOps) (clock : Nat → Clock) (n c : Nat) (s : State)
    (h : s.receiveBuffer.length < FRAME_SIZE) : parseLoop fp clock n c s = some s := by
  cases n with
  | zero => rfl
  | succ n => rw [parseLoop, if_neg (by omega)]

theorem parseLoop_frame (fp : FloatOps) (clock : Nat → Clock) (n c : Nat) (s : State)
    (g p r : List Byte) (hp : p.length = 216) (hg : NoHead (g ++ [0xAA]))
    (hbuf : s.receiveBuffer = g ++ frame p ++ r) :
    parseLoop fp clock (n + 1) c s =
      if r.length > FRAME_SIZE * 3 then
        some { afterFrame fp (clock c) p r s with
               receiveBuffer := []
               invalidFramesReceived := (afterFrame fp (clock c) p r s).invalidFramesReceived + 1 }
      else parseLoop fp clock n (c + 1) (afterFrame fp (clock c) p r s) := by
  have hlen : FRAME_SIZE ≤ s.receiveBuffer.length := by
    rw [hbuf, FRAME_SIZE_eq]; simp [frame_length p hp]; omega
  rw [parseLoop, if_pos hlen, parse_frame fp (clock c) s g p r hp hg hbuf]
  dsimp only
  rw [if_pos rfl]
  unfold overflowGuard
  by_cases hov : r.length > FRAME_SIZE * 3
  · rw [if_pos hov]
    dsimp only
    rw [if_pos hov]
    rfl
  · rw [if_neg hov]
    dsimp only
    rw [if_neg hov]
    rfl

theorem parseLoop_incomplete (fp : FloatOps) (clock : Nat → Clock) (n c : Nat) (s : State)
    (g f : List Byte) (hg : NoHead (g ++ [0xAA])) (hf : f.take 2 = HEAD_PATTERN)
    (hflen : f.length < 222) (hbuf : s.receiveBuffer = g ++ f)
    (hlen : 222 ≤ s.receiveBuffer.length) :
    parseLoop fp clock (n + 1) c s = some { s with receiveBuffer := f } := by
  rw [parseLoop, if_pos (by rw [FRAME_SIZE_eq]; omega),
    parse_incomplete fp (clock c) s g f hg hf hflen hbuf hlen]
  rfl

theorem parseLoop_noHead (fp : FloatOps) (clock : Nat → Clock) (n c : Nat) (s : State)
    (h : NoHead s.receiveBuffer) (hlen : 222 ≤ s.receiveBuffer.length) :
    parseLoop fp clock (n + 1) c s =
      some { s with
             receiveBuffer := s.receiveBuffer.drop (s.receiveBuffer.length - 221) } := by
  rw [parseLoop, if_pos (by rw [FRAME_SIZE_eq]; omega), parse_noHead fp (clock c) s h hlen]
  rfl

theorem feed_quiet (fp : FloatOps) :
    ∀ (chunks : List (List Byte)) (clock : Nat → Nat → Clock) (s : State),
      chunks.flatten = [] → s.receiveBuffer.length < FRAME_SIZE →
      feed fp clock s chunks = some s := by
  intro chunks
  induction chunks with
  | nil => intro _ s _ _; rfl
  | cons c cs ih =>
    intro clock s hj hlen
    have hc : c = [] := by
      simp only [List.flatten_cons, List.append_eq_nil] at hj
      exact hj.1
    have hcs : cs.flatten = [] := by
      simp only [List.flatten_cons, List.append_eq_nil] at hj
      exact hj.2
    subst hc
    have hs : ({ s with
        totalBytesReceived := s.totalBytesReceived + ([] : List Byte).length
        receiveBuffer := s.receiveBuffer ++ [] } : State) = s := by
      simp
    rw [feed, onSerialDataReceived]
    rw [hs, parseLoop_short fp _ _ _ s hlen]
    exact ih _ s hcs hlen

theorem feed_single (fp : FloatOps) (p : List Byte) (hp : p.length = 216) :
    ∀ (chunks : List (List Byte)) (clock : Nat → Nat → Clock) (s : State) (g : List Byte),
      s.receiveBuffer.length < 222 →
      s.receiveBuffer ++ chunks.flatten = g ++ frame p →
      NoHead (g ++ [0xAA]) →
      ∃ s', feed fp clock s chunks = some s' ∧
        s'.receiveBuffer = [] ∧
        s'.extracted = s.extracted ++ [p] ∧
        s'.imuData = decodePayload p ∧
        s'.validFramesReceived = s.validFramesReceived + 1 ∧
        s'.invalidFramesReceived = s.invalidFramesReceived := by
  intro chunks
  induction chunks with
  | nil =>
    intro clock s g hlen hstream _
    exfalso
    have := congrArg List.length hstream
    simp [frame_length p hp] at this
    omega
  | cons c cs ih =>
    intro clock s g hlen hstream hg
    rw [List.flatten_cons, ← List.append_assoc] at hstream
    rw [feed, onSerialDataReceived]
    generalize hs1 : ({ s with
        totalBytesReceived := s.totalBytesReceived + c.length
        receiveBuffer := s.receiveBuffer ++ c } : State) = s1
    have hb1 : s1.receiveBuffer = s.receiveBuffer ++ c := by rw [← hs1]
    have he1 : s1.extracted = s.extracted := by rw [← hs1]
    have hv1 : s1.validFramesReceived = s.validFramesReceived := by rw [← hs1]
    have hi1 : s1.invalidFramesReceived = s.invalidFramesReceived := by rw [← hs1]
    rw [← hb1] at hstream
    by_cases hshort : s1.receiveBuffer.length < 222
    · rw [parseLoop_short fp _ _ _ s1 (by rw [FRAME_SIZE_eq]; exact hshort)]
      dsimp only
      obtain ⟨s', h1, h2, h3, h4, h5, h6⟩ := ih (fun n => clock (n + 1)) s1 g hshort hstream hg
      exact ⟨s', h1, h2, by rw [h3, he1], h4, by rw [h5, hv1], by rw [h6, hi1]⟩
    · have hlong : 222 ≤ s1.receiveBuffer.length := by omega
      rcases List.append_eq_append_iff.mp hstream with ⟨a', hga, hta⟩ | ⟨c', hbc, hfc⟩
      · -- the buffer ends inside the garbage
        have hno : NoHead s1.receiveBuffer := by
          apply NoHead_append_left _ (a' ++ [0xAA])
          rw [← List.append_assoc, ← hga]; exact hg
        rw [show MAX_PARSE_PER_CALL = 9 + 1 from rfl, parseLoop_noHead fp _ _ _ s1 hno hlong]
        dsimp only
        generalize hs2 : ({ s1 with
          receiveBuffer := s1.receiveBuffer.drop (s1.receiveBuffer.length - 221) } : State) = s2
        have hb2 : s2.receiveBuffer = s1.receiveBuffer.drop (s1.receiveBuffer.length - 221) := by
          rw [← hs2]
        obtain ⟨s', h1, h2, h3, h4, h5, h6⟩ := ih (fun n => clock (n + 1)) s2
          (s1.receiveBuffer.drop (s1.receiveBuffer.length - 221) ++ a')
          (by rw [hb2, List.length_drop]; omega)
          (by rw [hb2, hta, List.append_assoc])
          (by
            have := NoHead_drop _ (s1.receiveBuffer.length - 221) hg
            rw [hga, List.append_assoc, List.drop_append_of_le_length (by omega)] at this
            rw [List.append_assoc]; exact this)
        refine ⟨s', h1, h2, ?_, h4, ?_, ?_⟩
        · rw [h3, ← hs2]; exact congrArg (· ++ [p]) he1
        · rw [h5, ← hs2]; exact congrArg (· + 1) hv1
        · rw [h6, ← hs2]; exact hi1
      · -- the buffer reaches into the frame
        have hc'len : c'.length ≤ 222 := by
          have := congrArg List.length hfc
          rw [List.length_append, frame_length p hp] at this
          omega
        by_cases hc2 : c'.length < 2
        · -- fewer than two bytes of the frame: still no header
          have hc'AA : c' = [] ∨ c' = [0xAA] := by
            rcases c' with _ | ⟨x, _ | ⟨y, t⟩⟩
            · left; rfl
            · right
              rw [frame_cons] at hfc
              simp at hfc
              rw [hfc.1]
            · exfalso
              simp only [List.length_cons] at hc2
              omega
          have hno : NoHead s1.receiveBuffer := by
            rw [hbc]
            rcases hc'AA with h | h
            · rw [h, List.append_nil]; exact NoHead_append_left _ _ hg
            · rw [h]; exact hg
          rw [show MAX_PARSE_PER_CALL = 9 + 1 from rfl, parseLoop_noHead fp _ _ _ s1 hno hlong]
          dsimp only
          generalize hs2 : ({ s1 with
            receiveBuffer := s1.receiveBuffer.drop (s1.receiveBuffer.length - 221) } : State) = s2
          have hb2 : s2.receiveBuffer
              = s1.receiveBuffer.drop (s1.receiveBuffer.length - 221) := by
            rw [← hs2]
          have hl1 : s1.receiveBuffer.length = g.length + c'.length := by rw [hbc]; simp
          have hdrop : s1.receiveBuffer.drop (s1.receiveBuffer.length - 221)
              = g.drop (s1.receiveBuffer.length - 221) ++ c' := by
            rw [hbc, List.drop_append_of_le_length (by simp only [List.length_append]; omega)]
          obtain ⟨s', h1, h2, h3, h4, h5, h6⟩ := ih (fun n => clock (n + 1)) s2
            (g.drop (s1.receiveBuffer.length - 221))
            (by rw [hb2, List.length_drop]; omega)
            (by rw [hb2, hdrop, List.append_assoc, ← hfc])
            (by
              have := NoHead_drop _ (s1.receiveBuffer.length - 221) hg
              rw [List.drop_append_of_le_length (by omega)] at this
              exact this)
          refine ⟨s', h1, h2, ?_, h4, ?_, ?_⟩
          · rw [h3, ← hs2]; exact congrArg (· ++ [p]) he1
          · rw [h5, ← hs2]; exact congrArg (· + 1) hv1
          · rw [h6, ← hs2]; exact hi1
        · have htake : c'.take 2 = HEAD_PATTERN := by
            have : (frame p).take 2 = HEAD_PATTERN := rfl
            rw [hfc, List.take_append_of_le_length (by omega)] at this
            exact this
          by_cases hfull : c'.length < 222
          · -- the frame is incomplete
            rw [show MAX_PARSE_PER_CALL = 9 + 1 from rfl,
              parseLoop_incomplete fp _ _ _ s1 g c' hg htake hfull hbc hlong]
            dsimp only
            generalize hs2 : ({ s1 with receiveBuffer := c' } : State) = s2
            have hb2 : s2.receiveBuffer = c' := by rw [← hs2]
            obtain ⟨s', h1, h2, h3, h4, h5, h6⟩ := ih (fun n => clock (n + 1)) s2 []
              (by rw [hb2]; exact hfull)
              (by rw [hb2, List.nil_append, ← hfc])
              (noHead_nil_cons _)
            refine ⟨s', h1, h2, ?_, h4, ?_, ?_⟩
            · rw [h3, ← hs2]; exact congrArg (· ++ [p]) he1
            · rw [h5, ← hs2]; exact congrArg (· + 1) hv1
            · rw [h6, ← hs2]; exact hi1
          · -- the frame is complete
            have hcs : cs.flatten = [] := by
              have := congrArg List.length hfc
              rw [List.length_append, frame_length p hp] at this
              exact List.eq_nil_of_length_eq_zero (by omega)
            have hc'eq : c' = frame p := by rw [hfc, hcs, List.append_nil]
            rw [show MAX_PARSE_PER_CALL = 9 + 1 from rfl,
              parseLoop_frame fp _ 9 0 s1 g p [] hp hg (by rw [hbc, hc'eq, List.append_nil])]
            rw [if_neg (by simp)]
            obtain ⟨f1, f2, f3, f4, f5⟩ := afterFrame_fields fp (clock 0 0) p [] s1
            rw [parseLoop_short fp _ _ _ _ (by rw [f1, FRAME_SIZE_eq]; simp)]
            dsimp only
            rw [feed_quiet fp cs _ _ hcs (by rw [f1, FRAME_SIZE_eq]; simp)]
            exact ⟨_, rfl, f1, by rw [f5, he1], f2, by rw [f3, hv1], by rw [f4, hi1]⟩

theorem noHead_of_headerless (g : List Byte) (h : ¬ HEAD_PATTERN <:+: g) :
    NoHead (g ++ [0xAA]) := by
  intro j hc
  unfold HEAD_PATTERN at hc
  rw [take_two_drop_eq] at hc
  obtain ⟨h0, h1⟩ := hc
  by_cases hj : j + 1 < g.length
  · apply h
    rw [List.getElem?_append_left (by omega)] at h0
    rw [List.getElem?_append_left hj] at h1
    refine ⟨g.take j, g.drop (j + 2), ?_⟩
    have e1 : (g.drop j).take 2 = HEAD_PATTERN := by
      unfold HEAD_PATTERN
      rw [take_two_drop_eq]; exact ⟨h0, h1⟩
    have e2 : g.drop (j + 2) = (g.drop j).drop 2 := by rw [List.drop_drop]
    rw [← e1, e2, List.append_assoc, List.take_append_drop, List.take_append_drop]
  · by_cases hj2 : j + 1 = g.length
    · rw [hj2, List.getElem?_append_right (le_refl _)] at h1
      simp at h1
    · rw [List.getElem?_eq_none (by simp; omega)] at h1
      exact Option.noConfusion h1

theorem parse_first_header_incomplete (fp : FloatOps) (clock : Clock) (s : State) (i : Nat)
    (hlen : FRAME_SIZE ≤ s.receiveBuffer.length)
    (hfull : s.receiveBuffer.length < i + FRAME_SIZE)
    (hhead : (s.receiveBuffer.drop i).take 2 = HEAD_PATTERN)
    (hfirst : ∀ j, j < i → (s.receiveBuffer.drop j).take 2 ≠ HEAD_PATTERN) :
    parseReceivedData fp clock s =
      some (1, { s with receiveBuffer := s.receiveBuffer.drop i }) := by
  have h2 : i + 2 ≤ s.receiveBuffer.length := by
    by_contra hc
    have : ((s.receiveBuffer.drop i).take 2).length = 2 := by rw [hhead]; rfl
    simp at this; omega
  rw [FRAME_SIZE_eq] at hlen
  have hscan : scanFrom s.receiveBuffer (s.receiveBuffer.length - HEAD_SIZE + 1) 0
      = Scan.needMore i := by
    have e : s.receiveBuffer.length - HEAD_SIZE + 1
        = i + (s.receiveBuffer.length - 2 - i + 1) := by
      rw [HEAD_SIZE_eq]; omega
    rw [e, scanFrom_skip s.receiveBuffer i _ 0 (by omega) (fun j _ hj => hfirst j (by omega))]
    rw [Nat.zero_add]
    exact scanFrom_needMore _ _ _ hhead hfull
  unfold parseReceivedData
  rw [if_neg (by rw [FRAME_SIZE_eq]; omega)]
  dsimp only
  rw [hscan]
  dsimp only
  by_cases hi : i > 0
  · rw [if_pos hi]
  · rw [if_neg hi]
    have : i = 0 := by omega
    subst this
    rfl

theorem feed_pair (fp : FloatOps) (p1 p2 : List Byte) (hp1 : p1.length = 216)
    (hp2 : p2.length = 216) :
    ∀ (chunks : List (List Byte)) (clock : Nat → Nat → Clock) (s : State),
      s.receiveBuffer.length < 222 →
      s.receiveBuffer ++ chunks.flatten = frame p1 ++ frame p2 →
      ∃ s', feed fp clock s chunks = some s' ∧
        s'.receiveBuffer = [] ∧
        s'.extracted = s.extracted ++ [p1, p2] ∧
        s'.imuData = decodePayload p2 ∧
        s'.validFramesReceived = s.validFramesReceived + 2 ∧
        s'.invalidFramesReceived = s.invalidFramesReceived := by
  intro chunks
  induction chunks with
  | nil =>
    intro clock s hlen hstream
    exfalso
    have := congrArg List.length hstream
    simp [frame_length p1 hp1, frame_length p2 hp2] at this
    omega
  | cons c cs ih =>
    intro clock s hlen hstream
    rw [List.flatten_cons, ← List.append_assoc] at hstream
    rw [feed, onSerialDataReceived]
    generalize hs1 : ({ s with
        totalBytesReceived := s.totalBytesReceived + c.length
        receiveBuffer := s.receiveBuffer ++ c } : State) = s1
    have hb1 : s1.receiveBuffer = s.receiveBuffer ++ c := by rw [← hs1]
    have he1 : s1.extracted = s.extracted := by rw [← hs1]
    have hv1 : s1.validFramesReceived = s.validFramesReceived := by rw [← hs1]
    have hi1 : s1.invalidFramesReceived = s.invalidFramesReceived := by rw [← hs1]
    rw [← hb1] at hstream
    by_cases hshort : s1.receiveBuffer.length < 222
    · rw [parseLoop_short fp _ _ _ s1 (by rw [FRAME_SIZE_eq]; exact hshort)]
      dsimp only
      obtain ⟨s', h1, h2, h3, h4, h5, h6⟩ := ih (fun n => clock (n + 1)) s1 hshort hstream
      exact ⟨s', h1, h2, by rw [h3, he1], h4, by rw [h5, hv1], by rw [h6, hi1]⟩
    · have hlong : 222 ≤ s1.receiveBuffer.length := by omega
      -- the buffer is the first frame followed by the start `c'` of the second
      obtain ⟨c', hbc, hfc⟩ : ∃ c', s1.receiveBuffer = frame p1 ++ c' ∧
          frame p2 = c' ++ cs.flatten := by
        rcases List.append_eq_append_iff.mp hstream with ⟨a', hga, hta⟩ | ⟨c', hbc, hfc⟩
        · have hl := congrArg List.length hga
          rw [List.length_append, frame_length p1 hp1] at hl
          have ha' : a' = [] := List.eq_nil_of_length_eq_zero (by omega)
          subst ha'
          exact ⟨[], by rw [hga]; simp, by rw [hta]; simp⟩
        · exact ⟨c', hbc, hfc⟩
      have hc'len : c'.length + cs.flatten.length = 222 := by
        have := congrArg List.length hfc
        rw [List.length_append, frame_length p2 hp2] at this
        omega
      rw [show MAX_PARSE_PER_CALL = 9 + 1 from rfl,
        parseLoop_frame fp _ 9 0 s1 [] p1 c' hp1 (noHead_nil_cons _)
          (by rw [hbc, List.nil_append])]
      rw [if_neg (by rw [FRAME_SIZE_eq]; omega)]
      obtain ⟨f1, f2, f3, f4, f5⟩ := afterFrame_fields fp (clock 0 0) p1 c' s1
      generalize afterFrame fp (clock 0 0) p1 c' s1 = s2 at f1 f2 f3 f4 f5 ⊢
      by_cases hfull : c'.length < 222
      · rw [parseLoop_short fp _ _ _ s2 (by rw [f1, FRAME_SIZE_eq]; exact hfull)]
        dsimp only
        obtain ⟨s', h1, h2, h3, h4, h5, h6⟩ := feed_single fp p2 hp2 cs
          (fun n => clock (n + 1)) s2 [] (by rw [f1]; exact hfull)
          (by rw [f1, List.nil_append, ← hfc]) (noHead_nil_cons _)
        refine ⟨s', h1, h2, ?_, h4, ?_, ?_⟩
        · rw [h3, f5, he1]; simp
        · rw [h5, f3, hv1]
        · rw [h6, f4, hi1]
      · have hcs : cs.flatten = [] := List.eq_nil_of_length_eq_zero (by omega)
        have hc'eq : c' = frame p2 := by rw [hfc, hcs, List.append_nil]
        rw [show (9 : Nat) = 8 + 1 from rfl,
          parseLoop_frame fp _ 8 1 s2 [] p2 [] hp2 (noHead_nil_cons _)
            (by rw [f1, hc'eq]; simp)]
        rw [if_neg (by simp)]
        obtain ⟨k1, k2, k3, k4, k5⟩ := afterFrame_fields fp (clock 0 1) p2 [] s2
        rw [parseLoop_short fp _ _ _ _ (by rw [k1, FRAME_SIZE_eq]; simp)]
        dsimp only
        rw [feed_quiet fp cs _ _ hcs (by rw [k1, FRAME_SIZE_eq]; simp)]
        refine ⟨_, rfl, k1, ?_, k2, ?_, ?_⟩
        · rw [k5, f5, he1]; simp
        · rw [k3, f3, hv1]
        · rw [k4, f4, hi1]

/-! ## Claims C1 to C7 -/

theorem samplePayload_length : samplePayload.length = 216 := by rfl
theorem headerPayload_length : headerPayload.length = 216 := by rfl

/-- C1: a well-formed frame split into consecutive chunks in any way and fed from an empty
buffer is extracted exactly once, with the readings of its payload, one more valid frame,
no invalid frame, and an empty buffer afterwards. -/
theorem C1_boundary_insensitivity (fp : FloatOps) (clock : Nat → Nat → Clock) (s : State)
    (p : List Byte) (chunks : List (List Byte))
    (hp : p.length = 216) (hs : s.receiveBuffer = []) (hc : chunks.flatten = frame p) :
    ∃ s', feed fp clock s chunks = some s' ∧
      s'.extracted = s.extracted ++ [p] ∧
      s'.imuData = decodePayload p ∧
      s'.validFramesReceived = s.validFramesReceived + 1 ∧
      s'.invalidFramesReceived = s.invalidFramesReceived ∧
      s'.receiveBuffer = [] := by
  obtain ⟨s', h1, h2, h3, h4, h5, h6⟩ := feed_single fp p hp chunks clock s []
    (by rw [hs]; simp) (by rw [hs, hc]) (noHead_nil_cons _)
  exact ⟨s', h1, h3, h4, h5, h6, h2⟩

theorem C1_boundary_insensitivity_witness :
    (samplePayload.length = 216 ∧ (State.init 0).receiveBuffer = [] ∧
      [(frame samplePayload).take 100, [], (frame samplePayload).drop 100].flatten
        = frame samplePayload) ∧
    ∃ s', feed sampleOps sampleClock (State.init 0)
        [(frame samplePayload).take 100, [], (frame samplePayload).drop 100] = some s' ∧
      s'.extracted = (State.init 0).extracted ++ [samplePayload] ∧
      s'.imuData = decodePayload samplePayload ∧
      s'.validFramesReceived = (State.init 0).validFramesReceived + 1 ∧
      s'.invalidFramesReceived = (State.init 0).invalidFramesReceived ∧
      s'.receiveBuffer = [] :=
  ⟨⟨samplePayload_length, rfl, by simp⟩,
   C1_boundary_insensitivity sampleOps sampleClock (State.init 0) samplePayload _
     samplePayload_length rfl (by simp)⟩

/-- C4: whatever the buffer held and whatever bytes arrive, onSerialDataReceived returns and
leaves at most 3 * FRAME_SIZE = 666 bytes in the receive buffer. -/
theorem C4_buffer_bound (fp : FloatOps) (clock : Nat → Clock) (s : State)
    (newData : List Byte) :
    ∃ s', onSerialDataReceived fp clock s newData = some s' ∧
      s'.receiveBuffer.length ≤ 3 * FRAME_SIZE ∧ 3 * FRAME_SIZE = 666 := by
  unfold onSerialDataReceived
  obtain ⟨s', h1, h2⟩ := parseLoop_bound fp clock MAX_PARSE_PER_CALL 0 _
    (fun h => absurd h (by decide))
  exact ⟨s', h1, by omega, rfl⟩

/-- C5: parseReceivedData returns 0 only at the smallest index `i` where header and tail both
match literally inside the buffer; it stores the readings decoded from bytes [i+2, i+218)
and removes exactly the first i+222 bytes. -/
theorem C5_extraction_soundness (fp : FloatOps) (clock : Clock) (s s' : State)
    (h : parseReceivedData fp clock s = some (0, s')) :
    ∃ i, i + 222 ≤ s.receiveBuffer.length ∧
      (s.receiveBuffer.drop i).take 2 = [0xAA, 0x55] ∧
      (s.receiveBuffer.drop (i + 218)).take 4 = [0x00, 0x00, 0x80, 0x7F] ∧
      (∀ k, k < i → ¬ ((s.receiveBuffer.drop k).take 2 = [0xAA, 0x55] ∧
          (s.receiveBuffer.drop (k + 218)).take 4 = [0x00, 0x00, 0x80, 0x7F])) ∧
      s'.imuData = decodePayload ((s.receiveBuffer.drop (i + 2)).take 216) ∧
      s'.extracted = s.extracted ++ [(s.receiveBuffer.drop (i + 2)).take 216] ∧
      s'.receiveBuffer = s.receiveBuffer.drop (i + 222) := by
  rcases parseReceivedData_spec fp clock s with ⟨b, hp, _, _⟩ | ⟨i, h1, h2, h3, h4, hp⟩
  · rw [hp] at h
    simp at h
  · rw [hp] at h
    have hs' := (Prod.mk.inj (Option.some.inj h)).2
    obtain ⟨_, f2, _, _, f5⟩ := acceptFrame_fields fp clock
      ((s.receiveBuffer.drop (i + 2)).take 216) s
    refine ⟨i, by rw [FRAME_SIZE_eq] at h1; exact h1, h2, h3, h4, ?_, ?_, ?_⟩
    · rw [← hs']; exact f2
    · rw [← hs']; exact f5
    · rw [← hs']

theorem sampleGarbage_noHeader : ¬ HEAD_PATTERN <:+: sampleGarbage := by decide

theorem C5_extraction_soundness_witness :
    parseReceivedData sampleOps (sampleClock 0 0) sampleBuffered = some (0, sampleParsed) ∧
    ∃ i, i + 222 ≤ sampleBuffered.receiveBuffer.length ∧
      (sampleBuffered.receiveBuffer.drop i).take 2 = [0xAA, 0x55] ∧
      (sampleBuffered.receiveBuffer.drop (i + 218)).take 4 = [0x00, 0x00, 0x80, 0x7F] ∧
      (∀ k, k < i → ¬ ((sampleBuffered.receiveBuffer.drop k).take 2 = [0xAA, 0x55] ∧
          (sampleBuffered.receiveBuffer.drop (k + 218)).take 4 = [0x00, 0x00, 0x80, 0x7F])) ∧
      sampleParsed.imuData = decodePayload ((sampleBuffered.receiveBuffer.drop (i + 2)).take 216) ∧
      sampleParsed.extracted =
        sampleBuffered.extracted ++ [(sampleBuffered.receiveBuffer.drop (i + 2)).take 216] ∧
      sampleParsed.receiveBuffer = sampleBuffered.receiveBuffer.drop (i + 222) :=
  ⟨parse_frame sampleOps (sampleClock 0 0) sampleBuffered sampleGarbage samplePayload []
      samplePayload_length (noHead_of_headerless _ sampleGarbage_noHeader)
      (by simp [sampleBuffered, sampleState]),
   C5_extraction_soundness sampleOps (sampleClock 0 0) sampleBuffered sampleParsed
     (parse_frame sampleOps (sampleClock 0 0) sampleBuffered sampleGarbage samplePayload []
      samplePayload_length (noHead_of_headerless _ sampleGarbage_noHeader)
      (by simp [sampleBuffered, sampleState]))⟩

/-- C6: garbage without the header literal followed by a well-formed frame, fed in any
chunking from an empty buffer, yields exactly that frame.  The two trimming rules that keep
the frame intact: with no header in the buffer the last FRAME_SIZE - 1 bytes are kept, and
with the first header at `i` and no full frame behind it exactly the bytes before `i` go. -/
theorem C6_resync_after_garbage (fp : FloatOps) (clock : Nat → Nat → Clock) (s : State)
    (g p : List Byte) (chunks : List (List Byte))
    (hp : p.length = 216) (hg : ¬ HEAD_PATTERN <:+: g) (hs : s.receiveBuffer = [])
    (hc : chunks.flatten = g ++ frame p) :
    (∃ s', feed fp clock s chunks = some s' ∧
      s'.extracted = s.extracted ++ [p] ∧
      s'.imuData = decodePayload p ∧
      s'.validFramesReceived = s.validFramesReceived + 1 ∧
      s'.receiveBuffer = []) ∧
    (∀ (c : Clock) (t : State), FRAME_SIZE ≤ t.receiveBuffer.length →
      (∀ j, (t.receiveBuffer.drop j).take 2 ≠ HEAD_PATTERN) →
      parseReceivedData fp c t =
        some (1, { t with receiveBuffer :=
                     t.receiveBuffer.drop (t.receiveBuffer.length - (FRAME_SIZE - 1)) })) ∧
    (∀ (c : Clock) (t : State) (i : Nat), FRAME_SIZE ≤ t.receiveBuffer.length →
      t.receiveBuffer.length < i + FRAME_SIZE →
      (t.receiveBuffer.drop i).take 2 = HEAD_PATTERN →
      (∀ j, j < i → (t.receiveBuffer.drop j).take 2 ≠ HEAD_PATTERN) →
      parseReceivedData fp c t = some (1, { t with receiveBuffer := t.receiveBuffer.drop i })) := by
  refine ⟨?_, ?_, ?_⟩
  · obtain ⟨s', h1, h2, h3, h4, h5, _⟩ := feed_single fp p hp chunks clock s g
      (by rw [hs]; simp) (by rw [hs, hc]; rfl) (noHead_of_headerless g hg)
    exact ⟨s', h1, h3, h4, h5, h2⟩
  · intro c t hlen hno
    exact parse_noHead fp c t hno (by rw [FRAME_SIZE_eq] at hlen; exact hlen)
  · intro c t i hlen hfull hhead hfirst
    exact parse_first_header_incomplete fp c t i hlen hfull hhead hfirst

theorem C6_resync_after_garbage_witness :
    (samplePayload.length = 216 ∧ ¬ HEAD_PATTERN <:+: sampleGarbage ∧
      (State.init 0).receiveBuffer = [] ∧
      [sampleGarbage ++ [0xAA], [0x55], (frame samplePayload).drop 2].flatten
        = sampleGarbage ++ frame samplePayload) ∧
    ((∃ s', feed sampleOps sampleClock (State.init 0)
          [sampleGarbage ++ [0xAA], [0x55], (frame samplePayload).drop 2] = some s' ∧
        s'.extracted = (State.init 0).extracted ++ [samplePayload] ∧
        s'.imuData = decodePayload samplePayload ∧
        s'.validFramesReceived = (State.init 0).validFramesReceived + 1 ∧
        s'.receiveBuffer = []) ∧
      (∀ (c : Clock) (t : State), FRAME_SIZE ≤ t.receiveBuffer.length →
        (∀ j, (t.receiveBuffer.drop j).take 2 ≠ HEAD_PATTERN) →
        parseReceivedData sampleOps c t =
          some (1, { t with receiveBuffer :=
                       t.receiveBuffer.drop (t.receiveBuffer.length - (FRAME_SIZE - 1)) })) ∧
      (∀ (c : Clock) (t : State) (i : Nat), FRAME_SIZE ≤ t.receiveBuffer.length →
        t.receiveBuffer.length < i + FRAME_SIZE →
        (t.receiveBuffer.drop i).take 2 = HEAD_PATTERN →
        (∀ j, j < i → (t.receiveBuffer.drop j).take 2 ≠ HEAD_PATTERN) →
        parseReceivedData sampleOps c t =
          some (1, { t with receiveBuffer := t.receiveBuffer.drop i }))) :=
  ⟨⟨samplePayload_length, sampleGarbage_noHeader, rfl, by rfl⟩,
   C6_resync_after_garbage sampleOps sampleClock (State.init 0) sampleGarbage samplePayload _
     samplePayload_length sampleGarbage_noHeader rfl (by rfl)⟩

/-- C7: two well-formed frames back to back, fed in any chunking from an empty buffer, are
extracted as exactly two frames, first the payload of the first and then the payload of the
second.  This holds for every first payload, in particular for one that contains the header
bytes AA 55: those bytes never start an extracted frame. -/
theorem C7_no_false_resync (fp : FloatOps) (clock : Nat → Nat → Clock) (s : State)
    (p1 p2 : List Byte) (chunks : List (List Byte))
    (hp1 : p1.length = 216) (hp2 : p2.length = 216) (hs : s.receiveBuffer = [])
    (hc : chunks.flatten = frame p1 ++ frame p2) :
    ∃ s', feed fp clock s chunks = some s' ∧
      s'.extracted = s.extracted ++ [p1, p2] ∧
      s'.imuData = decodePayload p2 ∧
      s'.validFramesReceived = s.validFramesReceived + 2 ∧
      s'.invalidFramesReceived = s.invalidFramesReceived ∧
      s'.receiveBuffer = [] := by
  obtain ⟨s', h1, h2, h3, h4, h5, h6⟩ := feed_pair fp p1 p2 hp1 hp2 chunks clock s
    (by rw [hs]; simp) (by rw [hs, hc]; rfl)
  exact ⟨s', h1, h3, h4, h5, h6, h2⟩

theorem C7_no_false_resync_witness :
    (headerPayload.length = 216 ∧ samplePayload.length = 216 ∧
      HEAD_PATTERN <:+: headerPayload ∧
      (State.init 0).receiveBuffer = [] ∧
      [(frame headerPayload).take 3, (frame headerPayload).drop 3 ++ frame samplePayload].flatten
        = frame headerPayload ++ frame samplePayload) ∧
    ∃ s', feed sampleOps sampleClock (State.init 0)
        [(frame headerPayload).take 3, (frame headerPayload).drop 3 ++ frame samplePayload]
          = some s' ∧
      s'.extracted = (State.init 0).extracted ++ [headerPayload, samplePayload] ∧
      s'.imuData = decodePayload samplePayload ∧
      s'.validFramesReceived = (State.init 0).validFramesReceived + 2 ∧
      s'.invalidFramesReceived = (State.init 0).invalidFramesReceived ∧
      s'.receiveBuffer = [] :=
  ⟨⟨headerPayload_length, samplePayload_length, ⟨[0x01], List.replicate 213 0x02, rfl⟩, rfl,
     by simp only [List.flatten_cons, List.flatten_nil, List.append_nil, ← List.append_assoc,
       List.take_append_drop]⟩,
   C7_no_false_resync sampleOps sampleClock (State.init 0) headerPayload samplePayload _
     headerPayload_length samplePayload_length rfl
     (by simp only [List.flatten_cons, List.flatten_nil, List.append_nil, ← List.append_assoc,
       List.take_append_drop])⟩

theorem NoHead_sampleNoise : NoHead sampleNoise := by
  intro j hc
  unfold HEAD_PATTERN sampleNoise at hc
  rw [take_two_drop_eq] at hc
  have h0 := hc.1
  rw [List.getElem?_replicate] at h0
  split at h0
  · exact absurd (Option.some.inj h0) (by decide)
  · exact Option.noConfusion h0

/-- C2 (evaluation at the failing input): five well-formed frames delivered by one read into
the constructor state.  The first frame is extracted, then the overflow guard of lines 649-656
clears the 888 bytes holding the other four and counts one invalid frame. -/
theorem C2_five_frames_one_call :
    ∃ s', feed sampleOps sampleClock (State.init 0)
        [frame samplePayload ++ frame samplePayload ++ frame samplePayload ++
          frame samplePayload ++ frame samplePayload] = some s' ∧
      s'.extracted = [samplePayload] ∧
      s'.validFramesReceived = 1 ∧
      s'.invalidFramesReceived = 1 ∧
      s'.receiveBuffer = [] := by
  rw [feed, onSerialDataReceived, show MAX_PARSE_PER_CALL = 9 + 1 from rfl,
    parseLoop_frame sampleOps _ 9 0 _ [] samplePayload
      (frame samplePayload ++ frame samplePayload ++ frame samplePayload ++ frame samplePayload)
      samplePayload_length (noHead_nil_cons _) (by simp [State.init])]
  rw [if_pos (by
    simp only [List.length_append, frame_length samplePayload samplePayload_length,
      FRAME_SIZE_eq]
    decide)]
  obtain ⟨f1, f2, f3, f4, f5⟩ := afterFrame_fields sampleOps (sampleClock 0 0) samplePayload
    (frame samplePayload ++ frame samplePayload ++ frame samplePayload ++ frame samplePayload)
    { State.init 0 with
      totalBytesReceived := (State.init 0).totalBytesReceived +
        (frame samplePayload ++ frame samplePayload ++ frame samplePayload ++
          frame samplePayload ++ frame samplePayload).length
      receiveBuffer := (State.init 0).receiveBuffer ++
        (frame samplePayload ++ frame samplePayload ++ frame samplePayload ++
          frame samplePayload ++ frame samplePayload) }
  refine ⟨_, rfl, ?_, ?_, ?_, rfl⟩
  · exact f5
  · exact f3
  · show _ + 1 = 1
    rw [f4]; rfl

/-- C3 (evaluation at the failing input): 3 * 222 + 1 = 667 noise bytes without a header,
delivered by one read into the constructor state.  parseReceivedData keeps the last 221
bytes and returns 1, the loop breaks before the overflow guard, and the invalid-frame
counter stays 0. -/
theorem C3_noise_one_call :
    ∃ s', feed sampleOps sampleClock (State.init 0) [sampleNoise] = some s' ∧
      s'.extracted = [] ∧
      s'.validFramesReceived = 0 ∧
      s'.invalidFramesReceived = 0 ∧
      s'.receiveBuffer = List.replicate 221 0x07 := by
  have hlen : sampleNoise.length = 667 := List.length_replicate _ _
  rw [feed, onSerialDataReceived, show MAX_PARSE_PER_CALL = 9 + 1 from rfl,
    parseLoop_noHead sampleOps _ 9 0 _
      (by show NoHead ([] ++ sampleNoise); exact NoHead_sampleNoise)
      (by show 222 ≤ ([] ++ sampleNoise).length; rw [List.nil_append, hlen]; decide)]
  refine ⟨_, rfl, rfl, rfl, rfl, ?_⟩
  dsimp only [State.init]
  rw [List.nil_append, hlen]
  unfold sampleNoise
  rw [List.drop_replicate]

/-! ## Claim C8: decoder layout -/

theorem leBytes_leWord (b0 b1 b2 b3 : Byte) : leBytes (leWord b0 b1 b2 b3) = [b0, b1, b2, b3] := by
  unfold leBytes leWord
  have h0 := b0.isLt
  have h1 := b1.isLt
  have h2 := b2.isLt
  have h3 := b3.isLt
  simp only [List.cons.injEq, and_true]
  refine ⟨?_, ?_, ?_, ?_⟩ <;> apply Fin.ext <;> simp only [Fin.ofNat, Fin.val_mk] <;> omega

theorem take_four_drop (L : List Byte) (off : Nat) (h : off + 4 ≤ L.length) :
    [L.getD off 0, L.getD (off + 1) 0, L.getD (off + 2) 0, L.getD (off + 3) 0]
      = (L.drop off).take 4 := by
  have e : ∀ i, L.getD (off + i) 0 = (L.drop off).getD i 0 := by
    intro i
    simp [List.getD_eq_getElem?_getD, List.getElem?_drop]
  have e0 := e 0
  rw [Nat.add_zero] at e0
  rw [e0, e 1, e 2, e 3]
  have hl : 4 ≤ (L.drop off).length := by rw [List.length_drop]; omega
  generalize L.drop off = D at hl ⊢
  rcases D with _ | ⟨a, _ | ⟨b, _ | ⟨c, _ | ⟨d, t⟩⟩⟩⟩ <;> simp at hl ⊢

theorem leBytes_wordAt (L : List Byte) (off : Nat) (h : off + 4 ≤ L.length) :
    leBytes (wordAt L off) = (L.drop off).take 4 := by
  unfold wordAt
  rw [leBytes_leWord, take_four_drop L off h]

theorem floatData_getD (p : List Byte) (j : Nat) (hj : j < 54) :
    (floatData p).getD j 0 = wordAt p (4 * j) := by
  unfold floatData
  rw [List.getD_eq_getElem?_getD, List.getElem?_map,
    List.getElem?_range (by simpa [IMU_COUNT, DATA_PER_IMU] using hj)]
  rfl

theorem readingAt_floatData (p : List Byte) (k : Nat) (hk : k < 9) :
    readingAt (floatData p) k =
      { accel := ⟨wordAt p (24 * k), wordAt p (24 * k + 4), wordAt p (24 * k + 8)⟩
        gyro := ⟨wordAt p (24 * k + 12), wordAt p (24 * k + 16), wordAt p (24 * k + 20)⟩ } := by
  unfold readingAt
  rw [floatData_getD p _ (by omega), floatData_getD p _ (by omega),
    floatData_getD p _ (by omega), floatData_getD p _ (by omega),
    floatData_getD p _ (by omega), floatData_getD p _ (by omega)]
  have e0 : 4 * (k * 6 + 0) = 24 * k := by omega
  have e1 : 4 * (k * 6 + 1) = 24 * k + 4 := by omega
  have e2 : 4 * (k * 6 + 2) = 24 * k + 8 := by omega
  have e3 : 4 * (k * 6 + 3) = 24 * k + 12 := by omega
  have e4 : 4 * (k * 6 + 4) = 24 * k + 16 := by omega
  have e5 : 4 * (k * 6 + 5) = 24 * k + 20 := by omega
  rw [e0, e1, e2, e3, e4, e5]

theorem take_add_drop (L : List Byte) (off a b : Nat) :
    (L.drop off).take a ++ (L.drop (off + a)).take b = (L.drop off).take (a + b) := by
  rw [List.take_add, List.drop_drop]

theorem encodeReading_readingAt (p : List Byte) (k : Nat) (hk : k < 9) (hp : p.length = 216) :
    encodeReading (readingAt (floatData p) k) = (p.drop (24 * k)).take 24 := by
  rw [readingAt_floatData p k hk]
  unfold encodeReading
  dsimp only
  rw [leBytes_wordAt p _ (by omega), leBytes_wordAt p _ (by omega),
    leBytes_wordAt p _ (by omega), leBytes_wordAt p _ (by omega),
    leBytes_wordAt p _ (by omega), leBytes_wordAt p _ (by omega)]
  rw [take_add_drop, show 24 * k + 8 = 24 * k + (4 + 4) from rfl, take_add_drop,
    show 24 * k + 12 = 24 * k + (4 + 4 + 4) from rfl, take_add_drop,
    show 24 * k + 16 = 24 * k + (4 + 4 + 4 + 4) from rfl, take_add_drop,
    show 24 * k + 20 = 24 * k + (4 + 4 + 4 + 4 + 4) from rfl, take_add_drop]

theorem flatten_blocks (L : List Byte) (f : Nat → List Byte) (n : Nat)
    (hf : ∀ k, k < n → f k = (L.drop (24 * k)).take 24) :
    ((List.range n).map f).flatten = L.take (24 * n) := by
  induction n with
  | zero => simp
  | succ n ih =>
    rw [List.range_succ, List.map_append, List.flatten_append,
      ih (fun k hk => hf k (by omega))]
    simp only [List.map_cons, List.map_nil, List.flatten_cons, List.flatten_nil,
      List.append_nil]
    rw [hf n (by omega), show 24 * (n + 1) = 24 * n + 24 by omega, List.take_add]

/-- C8: for a 216-byte payload the decoder yields 9 readings, reading `k` holds the
little-endian words at offsets 24k, 24k+4, 24k+8 (accel x, y, z) and 24k+12, 24k+16, 24k+20
(gyro x, y, z), and re-encoding the readings in that layout gives back the payload. -/
theorem C8_decoder_layout_round_trip (p : List Byte) (hp : p.length = 216) :
    (decodePayload p).length = 9 ∧
    (∀ k, k < 9 → (decodePayload p)[k]? = some
      { accel := ⟨wordAt p (24 * k), wordAt p (24 * k + 4), wordAt p (24 * k + 8)⟩
        gyro := ⟨wordAt p (24 * k + 12), wordAt p (24 * k + 16), wordAt p (24 * k + 20)⟩ }) ∧
    encodePayload (decodePayload p) = p := by
  refine ⟨by simp [decodePayload, IMU_COUNT], ?_, ?_⟩
  · intro k hk
    unfold decodePayload
    rw [List.getElem?_map, List.getElem?_range (by simpa [IMU_COUNT] using hk)]
    exact congrArg some (readingAt_floatData p k hk)
  · unfold encodePayload decodePayload
    rw [List.map_map]
    rw [flatten_blocks p (encodeReading ∘ readingAt (floatData p)) IMU_COUNT
      (fun k hk => encodeReading_readingAt p k hk hp)]
    exact List.take_of_length_le (by rw [hp]; decide)

theorem C8_decoder_layout_round_trip_witness :
    samplePayload.length = 216 ∧
    ((decodePayload samplePayload).length = 9 ∧
    (∀ k, k < 9 → (decodePayload samplePayload)[k]? = some
      { accel := ⟨wordAt samplePayload (24 * k), wordAt samplePayload (24 * k + 4),
                  wordAt samplePayload (24 * k + 8)⟩
        gyro := ⟨wordAt samplePayload (24 * k + 12), wordAt samplePayload (24 * k + 16),
                 wordAt samplePayload (24 * k + 20)⟩ }) ∧
    encodePayload (decodePayload samplePayload) = samplePayload) :=
  ⟨samplePayload_length, C8_decoder_layout_round_trip samplePayload samplePayload_length⟩

/-! ## Claim C9: frequency estimate -/

/-- C9: when parseReceivedData accepts a frame at time `t = clock.frameNow`, the stored
arrival time becomes `t`; the frequency becomes 1000 / (t - t0) if a previous arrival `t0`
exists with t - t0 > 0 (exactly 100 for 10 ms), and keeps its previous value if there is no
previous arrival or t - t0 <= 0. -/
theorem C9_frequency_estimate (fp : FloatOps) (clock : Clock) (s s' : State)
    (h : parseReceivedData fp clock s = some (0, s')) :
    s'.lastFrameTime = some clock.frameNow ∧
    (∀ t0, s.lastFrameTime = some t0 → clock.frameNow - t0 > 0 →
      s'.actualFrequency = 1000 / ((clock.frameNow - t0 : Int) : ℚ)) ∧
    (∀ t0, s.lastFrameTime = some t0 → clock.frameNow - t0 = 10 →
      s'.actualFrequency = 100) ∧
    (∀ t0, s.lastFrameTime = some t0 → clock.frameNow - t0 ≤ 0 →
      s'.actualFrequency = s.actualFrequency) ∧
    (s.lastFrameTime = none → s'.actualFrequency = s.actualFrequency) := by
  rcases parseReceivedData_spec fp clock s with ⟨b, hp, _, _⟩ | ⟨i, _, _, _, _, hp⟩
  · rw [hp] at h
    simp at h
  · rw [hp] at h
    have hs' := (Prod.mk.inj (Option.some.inj h)).2
    obtain ⟨f1, f2⟩ := acceptFrame_time fp clock ((s.receiveBuffer.drop (i + 2)).take 216) s
    have g1 : s'.lastFrameTime = some clock.frameNow := by rw [← hs']; exact f1
    have g2 : s'.actualFrequency =
        (match s.lastFrameTime with
         | some last => if clock.frameNow - last > 0
                        then 1000 / ((clock.frameNow - last : Int) : ℚ)
                        else s.actualFrequency
         | none => s.actualFrequency) := by rw [← hs']; exact f2
    refine ⟨g1, ?_, ?_, ?_, ?_⟩
    · intro t0 ht hpos
      rw [g2, ht]
      dsimp only
      rw [if_pos hpos]
    · intro t0 ht h10
      rw [g2, ht]
      dsimp only
      rw [if_pos (by omega), h10]
      norm_num
    · intro t0 ht hneg
      rw [g2, ht]
      dsimp only
      rw [if_neg (by omega)]
    · intro hnone
      rw [g2, hnone]

theorem C9_frequency_estimate_witness :
    parseReceivedData sampleOps sampleFrameClock sampleTimedState
      = some (0, sampleTimedParsed) ∧
    (sampleTimedParsed.lastFrameTime = some sampleFrameClock.frameNow ∧
    (∀ t0, sampleTimedState.lastFrameTime = some t0 → sampleFrameClock.frameNow - t0 > 0 →
      sampleTimedParsed.actualFrequency = 1000 / ((sampleFrameClock.frameNow - t0 : Int) : ℚ)) ∧
    (∀ t0, sampleTimedState.lastFrameTime = some t0 → sampleFrameClock.frameNow - t0 = 10 →
      sampleTimedParsed.actualFrequency = 100) ∧
    (∀ t0, sampleTimedState.lastFrameTime = some t0 → sampleFrameClock.frameNow - t0 ≤ 0 →
      sampleTimedParsed.actualFrequency = sampleTimedState.actualFrequency) ∧
    (sampleTimedState.lastFrameTime = none →
      sampleTimedParsed.actualFrequency = sampleTimedState.actualFrequency)) :=
  ⟨parse_frame sampleOps sampleFrameClock sampleTimedState [] samplePayload []
      samplePayload_length (noHead_nil_cons _) (by simp [sampleTimedState]),
   C9_frequency_estimate sampleOps sampleFrameClock sampleTimedState sampleTimedParsed
     (parse_frame sampleOps sampleFrameClock sampleTimedState [] samplePayload []
      samplePayload_length (noHead_nil_cons _) (by simp [sampleTimedState]))⟩

/-! ## Binary64 rounding -/

theorem roundHalfEven_intCast (n : ℤ) : roundHalfEven (n : ℚ) = n := by
  unfold roundHalfEven
  simp

theorem floor_le_roundHalfEven (r : ℚ) : ⌊r⌋ ≤ roundHalfEven r := by
  unfold roundHalfEven
  split_ifs <;> omega

theorem roundHalfEven_le_floor_succ (r : ℚ) : roundHalfEven r ≤ ⌊r⌋ + 1 := by
  unfold roundHalfEven
  split_ifs <;> omega

theorem roundHalfEven_mono {a b : ℚ} (h : a ≤ b) : roundHalfEven a ≤ roundHalfEven b := by
  have hfl : ⌊a⌋ ≤ ⌊b⌋ := Int.floor_mono h
  rcases hfl.lt_or_eq with hlt | heq
  · exact le_trans (roundHalfEven_le_floor_succ a) (le_trans hlt (floor_le_roundHalfEven b))
  · have hd : a - ⌊a⌋ ≤ b - ⌊b⌋ := by rw [heq]; linarith
    unfold roundHalfEven
    rw [heq] at hd ⊢
    split_ifs <;> first | omega | (exfalso; linarith)

theorem le_roundHalfEven {n : ℤ} {r : ℚ} (h : (n : ℚ) ≤ r) : n ≤ roundHalfEven r := by
  have := roundHalfEven_mono h
  rwa [roundHalfEven_intCast] at this

theorem roundHalfEven_le {n : ℤ} {r : ℚ} (h : r ≤ (n : ℚ)) : roundHalfEven r ≤ n := by
  have := roundHalfEven_mono h
  rwa [roundHalfEven_intCast] at this

theorem roundHalfEven_eq_of_near {n : ℤ} {r : ℚ} (h : |r - n| < 1 / 2) : roundHalfEven r = n := by
  rw [abs_lt] at h
  unfold roundHalfEven
  have hcases : ⌊r⌋ = n ∨ ⌊r⌋ = n - 1 := by
    have ha : n - 1 ≤ ⌊r⌋ := by
      rw [Int.le_floor]; push_cast; linarith
    have hb : ⌊r⌋ < n + 1 := by
      rw [Int.floor_lt]; push_cast; linarith
    omega
  rcases hcases with hc | hc
  · have : r - ⌊r⌋ < 1 / 2 := by rw [hc]; linarith
    rw [if_pos this, hc]
  · have hgt : 1 / 2 < r - ⌊r⌋ := by rw [hc]; push_cast; linarith
    rw [if_neg (by linarith), if_pos hgt, hc]; ring

theorem two_zpow_pos (k : ℤ) : (0 : ℚ) < 2 ^ k := zpow_pos (by norm_num) k

theorem log_two_eq {x : ℚ} {k : ℤ} (hx : 0 < x) (h1 : (2 : ℚ) ^ k ≤ x) (h2 : x < 2 ^ (k + 1)) :
    Int.log 2 x = k := by
  have a : k ≤ Int.log 2 x := (Int.zpow_le_iff_le_log (by norm_num) hx).mp (by exact_mod_cast h1)
  have b : Int.log 2 x < k + 1 := (Int.lt_zpow_iff_log_lt (by norm_num) hx).mp (by exact_mod_cast h2)
  omega

theorem two_zpow_log_le {x : ℚ} (hx : 0 < x) : (2 : ℚ) ^ Int.log 2 x ≤ x := by
  have := @Int.zpow_log_le_self ℚ _ _ 2 x (by norm_num) hx
  exact_mod_cast this

theorem lt_two_zpow_log_succ (x : ℚ) : x < (2 : ℚ) ^ (Int.log 2 x + 1) := by
  have := @Int.lt_zpow_succ_log_self ℚ _ _ 2 (by norm_num) x
  exact_mod_cast this

theorem zpow_split (L : ℤ) : (2 : ℚ) ^ L = 2 ^ (52 : ℕ) * 2 ^ (L - 52) := by
  rw [← zpow_natCast, ← zpow_add₀ (by norm_num)]
  congr 1; push_cast; ring

theorem zpow_split_succ (L : ℤ) : (2 : ℚ) ^ (L + 1) = 2 ^ (53 : ℕ) * 2 ^ (L - 52) := by
  rw [← zpow_natCast, ← zpow_add₀ (by norm_num)]
  congr 1; push_cast; ring

/-- The scaled significand of a positive number lies in [2^52, 2^53). -/
theorem scaled_bounds {x : ℚ} (hx : 0 < x) :
    (2 : ℚ) ^ (52 : ℕ) ≤ x / 2 ^ (Int.log 2 x - 52) ∧ x / 2 ^ (Int.log 2 x - 52) < 2 ^ (53 : ℕ) := by
  have hp := two_zpow_pos (Int.log 2 x - 52)
  constructor
  · rw [le_div_iff₀ hp, ← zpow_split]
    exact two_zpow_log_le hx
  · rw [div_lt_iff₀ hp, ← zpow_split_succ]
    exact lt_two_zpow_log_succ x

theorem roundDouble_zero : roundDouble 0 = 0 := by
  unfold roundDouble; simp

theorem roundDouble_pos_bounds {q : ℚ} (hq : 0 < q) :
    (2 : ℚ) ^ Int.log 2 q ≤ roundDouble q ∧ roundDouble q ≤ 2 ^ (Int.log 2 q + 1) := by
  unfold roundDouble
  rw [if_neg hq.ne', abs_of_pos hq]
  obtain ⟨h1, h2⟩ := scaled_bounds hq
  have hp := two_zpow_pos (Int.log 2 q - 52)
  have a : (((2 : ℤ) ^ (52 : ℕ) : ℤ) : ℚ) ≤ roundHalfEven (q / 2 ^ (Int.log 2 q - 52)) := by
    have : (((2 : ℤ) ^ (52 : ℕ) : ℤ) : ℚ) ≤ q / 2 ^ (Int.log 2 q - 52) := by
      push_cast; exact h1
    exact_mod_cast le_roundHalfEven this
  have b : (roundHalfEven (q / 2 ^ (Int.log 2 q - 52)) : ℚ) ≤ (((2 : ℤ) ^ (53 : ℕ) : ℤ) : ℚ) := by
    have : q / 2 ^ (Int.log 2 q - 52) ≤ (((2 : ℤ) ^ (53 : ℕ) : ℤ) : ℚ) := by
      push_cast; exact h2.le
    exact_mod_cast roundHalfEven_le this
  push_cast at a b
  constructor
  · rw [zpow_split]
    exact mul_le_mul_of_nonneg_right a hp.le
  · rw [zpow_split_succ]
    exact mul_le_mul_of_nonneg_right b hp.le

theorem roundHalfEven_neg (r : ℚ) : roundHalfEven (-r) = -roundHalfEven r := by
  by_cases hint : r = ⌊r⌋
  · rw [hint, ← Int.cast_neg, roundHalfEven_intCast, roundHalfEven_intCast]
  · have h1 : (⌊r⌋ : ℚ) ≤ r := Int.floor_le r
    have h2 : r < ⌊r⌋ + 1 := Int.lt_floor_add_one r
    have h3 : (⌊r⌋ : ℚ) < r := lt_of_le_of_ne h1 (fun h => hint h.symm)
    have hfl : ⌊-r⌋ = -⌊r⌋ - 1 := by
      rw [Int.floor_eq_iff]; push_cast; constructor <;> linarith
    unfold roundHalfEven
    rw [hfl]
    push_cast
    split_ifs <;> first | omega | (exfalso; linarith)

theorem roundDouble_neg (q : ℚ) : roundDouble (-q) = -roundDouble q := by
  unfold roundDouble
  by_cases hq : q = 0
  · simp [hq]
  · rw [if_neg hq, if_neg (neg_ne_zero.mpr hq), abs_neg, neg_div, roundHalfEven_neg]
    push_cast; ring

theorem roundDouble_nonneg {q : ℚ} (hq : 0 ≤ q) : 0 ≤ roundDouble q := by
  rcases hq.lt_or_eq with h | h
  · exact le_trans (two_zpow_pos _).le (roundDouble_pos_bounds h).1
  · rw [← h, roundDouble_zero]

theorem roundDouble_nonpos {q : ℚ} (hq : q ≤ 0) : roundDouble q ≤ 0 := by
  have := roundDouble_nonneg (neg_nonneg.mpr hq)
  rw [roundDouble_neg] at this
  linarith

theorem roundDouble_mono_pos {a b : ℚ} (ha : 0 < a) (h : a ≤ b) :
    roundDouble a ≤ roundDouble b := by
  have hb : 0 < b := lt_of_lt_of_le ha h
  have hlog : Int.log 2 a ≤ Int.log 2 b := Int.log_mono_right ha h
  rcases hlog.lt_or_eq with hlt | heq
  · refine le_trans (roundDouble_pos_bounds ha).2 (le_trans ?_ (roundDouble_pos_bounds hb).1)
    exact zpow_le_zpow_right₀ (by norm_num) (by omega)
  · unfold roundDouble
    rw [if_neg ha.ne', if_neg hb.ne', abs_of_pos ha, abs_of_pos hb, heq]
    have hp := two_zpow_pos (Int.log 2 b - 52)
    apply mul_le_mul_of_nonneg_right _ hp.le
    exact_mod_cast roundHalfEven_mono (div_le_div_of_nonneg_right h hp.le)

/-- Rounding to binary64 is monotone. -/
theorem roundDouble_mono {a b : ℚ} (h : a ≤ b) : roundDouble a ≤ roundDouble b := by
  rcases lt_or_le 0 a with ha | ha
  · exact roundDouble_mono_pos ha h
  · rcases lt_or_le b 0 with hb | hb
    · have := roundDouble_mono_pos (neg_pos.mpr hb) (neg_le_neg h)
      rw [roundDouble_neg, roundDouble_neg] at this
      linarith
    · exact le_trans (roundDouble_nonpos ha) (roundDouble_nonneg hb)

/-- Evaluation of the rounding at a number whose binade and nearest significand are known. -/
theorem roundDouble_eq_of_near {q : ℚ} (n e : ℤ) (hq : q ≠ 0)
    (h1 : (2 : ℚ) ^ (e + 52) ≤ |q|) (h2 : |q| < 2 ^ (e + 53))
    (hn : |q / 2 ^ e - n| < 1 / 2) : roundDouble q = n * 2 ^ e := by
  have hlog : Int.log 2 |q| = e + 52 :=
    log_two_eq (abs_pos.mpr hq) h1 (by rw [show e + 52 + 1 = e + 53 by ring]; exact h2)
  unfold roundDouble
  rw [if_neg hq, hlog, show e + 52 - 52 = e by ring, roundHalfEven_eq_of_near hn]

theorem representable_neg {q : ℚ} (h : Representable q) : Representable (-q) := by
  obtain ⟨n, e, hn, rfl⟩ := h
  exact ⟨-n, e, by rwa [abs_neg], by push_cast; ring⟩

theorem representable_zero : Representable 0 := ⟨0, 0, by norm_num, by norm_num⟩

theorem representable_intCast (n : ℤ) (hn : |n| < 2 ^ (53 : ℕ)) : Representable (n : ℚ) :=
  ⟨n, 0, hn, by simp⟩

/-- Rounding leaves a binary64 value unchanged. -/
theorem roundDouble_of_representable {q : ℚ} (h : Representable q) : roundDouble q = q := by
  obtain ⟨n, e, hn, rfl⟩ := h
  by_cases hq : (n : ℚ) * 2 ^ e = 0
  · rw [hq, roundDouble_zero]
  · unfold roundDouble
    rw [if_neg hq]
    have habs : |(n : ℚ) * 2 ^ e| < 2 ^ (e + 53) := by
      rw [abs_mul, abs_of_pos (two_zpow_pos e), zpow_add₀ (by norm_num), mul_comm]
      apply mul_lt_mul_of_pos_left _ (two_zpow_pos e)
      have : ((|n| : ℤ) : ℚ) < (((2 : ℤ) ^ (53 : ℕ) : ℤ) : ℚ) := by exact_mod_cast hn
      push_cast at this
      exact_mod_cast this
    have hlog : Int.log 2 |(n : ℚ) * 2 ^ e| < e + 53 :=
      (Int.lt_zpow_iff_log_lt (by norm_num) (abs_pos.mpr hq)).mp (by exact_mod_cast habs)
    generalize Int.log 2 |(n : ℚ) * 2 ^ e| = L at hlog
    obtain ⟨d, hd⟩ : ∃ d : ℕ, e = L - 52 + d := ⟨(e - (L - 52)).toNat, by omega⟩
    have hscaled : (n : ℚ) * 2 ^ e / 2 ^ (L - 52) = ((n * 2 ^ d : ℤ) : ℚ) := by
      rw [hd, zpow_add₀ (by norm_num), zpow_natCast]
      field_simp
      ring
    rw [hscaled, roundHalfEven_intCast, hd, zpow_add₀ (by norm_num), zpow_natCast]
    push_cast
    ring

theorem significand_bounds {x : ℚ} (hx : 0 < x) :
    (2 : ℤ) ^ (52 : ℕ) ≤ roundHalfEven (x / 2 ^ (Int.log 2 x - 52)) ∧
    roundHalfEven (x / 2 ^ (Int.log 2 x - 52)) ≤ (2 : ℤ) ^ (53 : ℕ) := by
  obtain ⟨h1, h2⟩ := scaled_bounds hx
  constructor
  · apply le_roundHalfEven; push_cast; exact h1
  · apply roundHalfEven_le; push_cast; exact h2.le

/-- The result of rounding is a binary64 value. -/
theorem representable_roundDouble (q : ℚ) : Representable (roundDouble q) := by
  have hpos : ∀ x : ℚ, 0 < x → Representable (roundDouble x) := by
    intro x hx
    obtain ⟨h1, h2⟩ := significand_bounds hx
    unfold roundDouble
    rw [if_neg hx.ne', abs_of_pos hx]
    rcases h2.lt_or_eq with hlt | heq
    · exact ⟨_, _, by rw [abs_lt]; constructor <;> omega, rfl⟩
    · refine ⟨2 ^ (52 : ℕ), Int.log 2 x - 52 + 1, by norm_num, ?_⟩
      rw [heq, zpow_add₀ (by norm_num)]
      push_cast
      ring
  rcases lt_trichotomy q 0 with h | h | h
  · have := representable_neg (hpos (-q) (neg_pos.mpr h))
    rwa [roundDouble_neg, neg_neg] at this
  · rw [h, roundDouble_zero]; exact representable_zero
  · exact hpos q h

theorem roundDouble_idem (q : ℚ) : roundDouble (roundDouble q) = roundDouble q :=
  roundDouble_of_representable (representable_roundDouble q)

/-- Exactness of the window subtraction: a binary64 value from 10 up to 2^54 minus 10 is a
binary64 value. -/
theorem representable_sub_ten {t : ℚ} (h : Representable t) (hc : 10 ≤ t)
    (ht : t < 2 ^ (54 : ℕ)) : Representable (t - 10) := by
  obtain ⟨n, e, hn, rfl⟩ := h
  rcases lt_or_le 0 e with he | he
  · obtain ⟨d, rfl⟩ : ∃ d : ℕ, e = (d : ℤ) + 1 := ⟨(e - 1).toNat, by omega⟩
    refine ⟨n * 2 ^ d - 5, 1, ?_, ?_⟩
    · rw [zpow_add₀ (by norm_num), zpow_natCast, zpow_one] at hc ht
      have h1 : (((5 : ℤ) : ℤ) : ℚ) ≤ ((n * 2 ^ d : ℤ) : ℚ) := by push_cast; linarith
      have h2 : ((n * 2 ^ d : ℤ) : ℚ) < (((2 : ℤ) ^ (53 : ℕ) : ℤ) : ℚ) := by
        push_cast; norm_num at ht ⊢; linarith
      have h1' : (5 : ℤ) ≤ n * 2 ^ d := by exact_mod_cast h1
      have h2' : n * 2 ^ d < (2 : ℤ) ^ (53 : ℕ) := by exact_mod_cast h2
      rw [abs_lt]
      constructor <;> omega
    · rw [zpow_add₀ (by norm_num), zpow_natCast, zpow_one]
      push_cast
      ring
  · obtain ⟨d, rfl⟩ : ∃ d : ℕ, e = -(d : ℤ) := ⟨(-e).toNat, by omega⟩
    have hp : (0 : ℚ) < 2 ^ d := pow_pos (by norm_num) d
    refine ⟨n - 10 * 2 ^ d, -(d : ℤ), ?_, ?_⟩
    · rw [zpow_neg, zpow_natCast] at hc
      have h1 : ((10 * 2 ^ d : ℤ) : ℚ) ≤ (n : ℚ) := by
        push_cast
        have := mul_le_mul_of_nonneg_right hc hp.le
        rwa [mul_assoc, inv_mul_cancel₀ hp.ne', mul_one] at this
      have h1' : (10 : ℤ) * 2 ^ d ≤ n := by exact_mod_cast h1
      have h0 : (0 : ℤ) ≤ (10 : ℤ) * 2 ^ d := by positivity
      rw [abs_lt] at hn ⊢
      constructor <;> omega
    · rw [zpow_neg, zpow_natCast]
      push_cast
      field_simp
      ring

/-! ## Claim C10: rolling window -/

theorem evictOld_eq_filter (m : ℚ) (pts : List QPointF)
    (h : pts.Pairwise (fun a b => a.1 ≤ b.1)) :
    evictOld m pts = pts.filter (fun pt => decide (m ≤ pt.1)) := by
  induction pts with
  | nil => rfl
  | cons a rest ih =>
    have hrest := (List.pairwise_cons.mp h).2
    have hhead := (List.pairwise_cons.mp h).1
    unfold evictOld at ih ⊢
    rw [removeCount]
    by_cases hlt : a.1 < m
    · rw [if_pos hlt, List.drop_succ_cons, ih hrest,
        List.filter_cons_of_neg (by simpa using hlt)]
    · rw [if_neg hlt, List.drop_zero]
      symm
      rw [List.filter_eq_self]
      intro x hx
      rw [decide_eq_true_iff]
      rcases List.mem_cons.mp hx with rfl | hx
      · exact not_lt.mp hlt
      · exact le_trans (not_lt.mp hlt) (hhead x hx)

theorem updateChart_startTime (now : Int) (a g : Axis3 FloatBits) (s : State) :
    (updateChart now a g s).startTime = s.startTime := rfl

theorem emitAll_startTime (es : List Emission) :
    ∀ s : State, (emitAll s es).startTime = s.startTime := by
  induction es with
  | nil => intro s; rfl
  | cons e es ih =>
    intro s
    unfold emitAll at ih ⊢
    rw [List.foldl_cons, ih]
    rfl

theorem windowStart_eq (t : ℚ) : windowStart t = roundDouble (t - 10) := by
  unfold windowStart
  norm_num [MAX_DISPLAY_SECONDS]

theorem windowStart_mono {a b : ℚ} (h : a ≤ b) : windowStart a ≤ windowStart b :=
  roundDouble_mono (by linarith)

/-- A binary64 time inside the exact window is not below the computed window start. -/
theorem windowStart_le_of_sub_le {t x : ℚ} (hx : Representable x) (h : t - 10 ≤ x) :
    windowStart t ≤ x := by
  rw [windowStart_eq, ← roundDouble_of_representable hx]
  exact roundDouble_mono h

/-- From 10 s up to 2^54 s the window start is computed without rounding error. -/
theorem windowStart_exact {t : ℚ} (ht : Representable t) (h10 : 10 ≤ t)
    (hlt : t < 2 ^ (54 : ℕ)) : windowStart t = t - 10 := by
  rw [windowStart_eq]
  exact roundDouble_of_representable (representable_sub_ten ht h10 hlt)

theorem windowStart_nonpos {t : ℚ} (h : t ≤ 10) : windowStart t ≤ 0 := by
  rw [windowStart_eq]
  exact roundDouble_nonpos (by linarith)

/-- For non-negative binary64 times below 2^54 the computed and the exact window agree. -/
theorem windowStart_le_iff {t x : ℚ} (ht : Representable t) (hlt : t < 2 ^ (54 : ℕ))
    (hx : 0 ≤ x) : windowStart t ≤ x ↔ t - 10 ≤ x := by
  rcases le_or_lt 10 t with h | h
  · rw [windowStart_exact ht h hlt]
  · exact ⟨fun _ => by linarith, fun _ => le_trans (windowStart_nonpos h.le) hx⟩

theorem representable_relativeTime (start now : Int) : Representable (relativeTime start now) :=
  representable_roundDouble _

theorem relativeTime_nonneg {start now : Int} (h : start ≤ now) :
    0 ≤ relativeTime start now := by
  unfold relativeTime
  apply roundDouble_nonneg
  apply div_nonneg _ (by norm_num)
  apply roundDouble_nonneg
  exact_mod_cast sub_nonneg.mpr h

/-- A millisecond count that fits `qint64` gives a relative time below 2^54 s. -/
theorem relativeTime_lt {start now : Int} (h : now - start < 2 ^ (63 : ℕ)) :
    relativeTime start now < 2 ^ (54 : ℕ) := by
  unfold relativeTime
  have h1 : roundDouble ((now - start : Int) : ℚ) ≤ 2 ^ (63 : ℕ) := by
    have hr : Representable ((2 : ℚ) ^ (63 : ℕ)) := ⟨1, 63, by norm_num, by norm_num⟩
    rw [← roundDouble_of_representable hr]
    apply roundDouble_mono
    have : ((now - start : Int) : ℚ) < (((2 : ℤ) ^ (63 : ℕ) : ℤ) : ℚ) := by exact_mod_cast h
    push_cast at this ⊢
    exact this.le
  have hr : Representable (9223372036854776 : ℚ) :=
    ⟨4611686018427388, 1, by norm_num, by norm_num⟩
  have h2 : roundDouble (roundDouble ((now - start : Int) : ℚ) / 1000) ≤ 9223372036854776 := by
    rw [← roundDouble_of_representable hr]
    apply roundDouble_mono
    rw [div_le_iff₀ (by norm_num)]
    refine le_trans h1 (by norm_num)
  refine lt_of_le_of_lt h2 (by norm_num)

/-- The relative time of a whole number of seconds is that number. -/
theorem relativeTime_seconds (start now k : Int) (h : now - start = 1000 * k)
    (hk : |1000 * k| < 2 ^ (53 : ℕ)) : relativeTime start now = k := by
  unfold relativeTime
  have hk' : |k| < 2 ^ (53 : ℕ) := by
    rw [abs_lt] at hk ⊢
    constructor <;> omega
  rw [h, roundDouble_of_representable (representable_intCast _ hk)]
  push_cast
  rw [mul_div_cancel_left₀ _ (by norm_num)]
  exact roundDouble_of_representable (representable_intCast _ hk')

theorem sampleTimes_sorted :
    ((sampleEarlier ++ [sampleLatest]).map
      (fun e => relativeTime (State.init 0).startTime e.1)).Pairwise (· ≤ ·) := by
  simp only [sampleEarlier, sampleLatest, State.init, List.cons_append,
    List.nil_append, List.map_cons, List.map_nil]
  rw [relativeTime_seconds 0 0 0 (by norm_num) (by norm_num),
    relativeTime_seconds 0 5000 5 (by norm_num) (by norm_num),
    relativeTime_seconds 0 12000 12 (by norm_num) (by norm_num),
    relativeTime_seconds 0 15000 15 (by norm_num) (by norm_num)]
  norm_num

/-- The doubles of line 497 at 10002 ms and 2 ms before the chart start, and of line 506 at
the latter: -10.002 and -0.002 are rounded in the binades of 8 and of 2^-9, and the
difference -0.002 - 10 is rounded to the double of -10.002. -/
theorem relativeTime_backdated :
    relativeTime 10002 0 = ((-5630625434119963 : ℤ) : ℚ) * 2 ^ (-49 : ℤ) := by
  unfold relativeTime
  rw [roundDouble_of_representable (representable_intCast _ (by norm_num))]
  exact roundDouble_eq_of_near _ _ (by norm_num) (by norm_num [abs_of_neg])
    (by norm_num [abs_of_neg]) (by norm_num [abs_lt])

theorem relativeTime_backdatedLatest :
    relativeTime 10002 10000 = ((-4611686018427388 : ℤ) : ℚ) * 2 ^ (-61 : ℤ) := by
  unfold relativeTime
  rw [roundDouble_of_representable (representable_intCast _ (by norm_num))]
  exact roundDouble_eq_of_near _ _ (by norm_num) (by norm_num [abs_of_neg])
    (by norm_num [abs_of_neg]) (by norm_num [abs_lt])

theorem windowStart_backdatedLatest :
    windowStart (relativeTime 10002 10000) = relativeTime 10002 0 := by
  rw [windowStart_eq, relativeTime_backdated, relativeTime_backdatedLatest]
  exact roundDouble_eq_of_near _ _ (by norm_num) (by norm_num [abs_of_neg])
    (by norm_num [abs_of_neg]) (by norm_num [abs_lt])

/-- A point emitted exactly 10000 ms before the newest one can be evicted: at 2 ms and
10002 ms after the chart start the doubles are 0.002 and 10.002, and the window start of
line 506, 10.002 - 10 computed in double, is above the double 0.002. -/
theorem relativeTime_lt_windowStart :
    relativeTime 0 2 < windowStart (relativeTime 0 10002) := by
  have h2 : relativeTime 0 2 = ((4611686018427388 : ℤ) : ℚ) * 2 ^ (-61 : ℤ) := by
    unfold relativeTime
    rw [roundDouble_of_representable (representable_intCast _ (by norm_num))]
    exact roundDouble_eq_of_near _ _ (by norm_num) (by norm_num [abs_of_pos])
      (by norm_num [abs_of_pos]) (by norm_num [abs_lt])
  have h10002 : relativeTime 0 10002 = ((5630625434119963 : ℤ) : ℚ) * 2 ^ (-49 : ℤ) := by
    unfold relativeTime
    rw [roundDouble_of_representable (representable_intCast _ (by norm_num))]
    exact roundDouble_eq_of_near _ _ (by norm_num) (by norm_num [abs_of_pos])
      (by norm_num [abs_of_pos]) (by norm_num [abs_lt])
  rw [windowStart_exact (representable_relativeTime 0 10002) (by rw [h10002]; norm_num)
    (by rw [h10002]; norm_num), h2, h10002]
  norm_num

theorem seriesFold_snoc (pts0 new : List QPointF) (pt : QPointF) :
    seriesFold pts0 (new ++ [pt])
      = evictOld (windowStart pt.1) (seriesFold pts0 new ++ [pt]) := by
  unfold seriesFold
  rw [List.foldl_append]
  rfl

theorem seriesFold_filter (new : List QPointF) :
    ∀ (pt : QPointF), (new ++ [pt]).Pairwise (fun a b => a.1 ≤ b.1) →
      seriesFold [] (new ++ [pt])
        = (new ++ [pt]).filter (fun q => decide (windowStart pt.1 ≤ q.1)) := by
  induction new using List.reverseRecOn with
  | nil =>
    intro pt _
    rw [seriesFold_snoc]
    exact evictOld_eq_filter _ _ (List.pairwise_singleton _ _)
  | append_singleton new' pt' ih =>
    intro pt hs
    have hs' : (new' ++ [pt']).Pairwise (fun a b => a.1 ≤ b.1) :=
      (List.pairwise_append.mp hs).1
    have hle : pt'.1 ≤ pt.1 :=
      (List.pairwise_append.mp hs).2.2 pt' (by simp) pt (by simp)
    rw [seriesFold_snoc, ih pt' hs']
    have hsub : ((new' ++ [pt']).filter (fun q => decide (windowStart pt'.1 ≤ q.1))
        ++ [pt]).Pairwise (fun a b => a.1 ≤ b.1) :=
      hs.sublist (List.Sublist.append (List.filter_sublist _) (List.Sublist.refl _))
    rw [evictOld_eq_filter _ _ hsub, List.filter_append, List.filter_filter,
      List.filter_append (new' ++ [pt']) [pt]]
    congr 1
    apply List.filter_congr
    intro x _
    by_cases hx : windowStart pt.1 ≤ x.1
    · have : windowStart pt'.1 ≤ x.1 := le_trans (windowStart_mono hle) hx
      simp [hx, this]
    · simp [hx]

theorem emitAll_series (proj : State → List QPointF) (val : Emission → FloatBits)
    (hstep : ∀ (s : State) (e : Emission), proj (updateChart e.1 e.2.1 e.2.2 s) =
      evictOld (windowStart (relativeTime s.startTime e.1))
        (proj s ++ [(relativeTime s.startTime e.1, val e)])) :
    ∀ (es : List Emission) (s : State),
      proj (emitAll s es)
        = seriesFold (proj s) (es.map (fun e => (relativeTime s.startTime e.1, val e))) := by
  intro es
  induction es with
  | nil => intro s; rfl
  | cons e es ih =>
    intro s
    have := ih (updateChart e.1 e.2.1 e.2.2 s)
    rw [updateChart_startTime, hstep] at this
    unfold emitAll at this ⊢
    rw [List.foldl_cons, this]
    rfl

theorem emitAll_curve (proj : State → List QPointF) (val : Emission → FloatBits)
    (hstep : ∀ (s : State) (e : Emission), proj (updateChart e.1 e.2.1 e.2.2 s) =
      evictOld (windowStart (relativeTime s.startTime e.1))
        (proj s ++ [(relativeTime s.startTime e.1, val e)]))
    (s : State) (es : List Emission) (hne : es ≠ []) (hproj : proj s = [])
    (hsorted : (es.map (fun e => relativeTime s.startTime e.1)).Pairwise (· ≤ ·)) :
    proj (emitAll s es) =
      (es.map (fun e => (relativeTime s.startTime e.1, val e))).filter
        (fun pt => decide (windowStart (relativeTime s.startTime (es.getLast hne).1) ≤ pt.1)) := by
  rw [emitAll_series proj val hstep, hproj]
  obtain ⟨init, last, rfl⟩ : ∃ init last, es = init ++ [last] :=
    ⟨es.dropLast, es.getLast hne, (List.dropLast_append_getLast hne).symm⟩
  have hlast : (init ++ [last]).getLast hne = last := by simp
  rw [hlast, List.map_append, List.map_cons, List.map_nil]
  have hs : (init.map (fun e => (relativeTime s.startTime e.1, val e)) ++
      [(relativeTime s.startTime last.1, val last)]).Pairwise (fun a b => a.1 ≤ b.1) := by
    have := hsorted
    rw [List.pairwise_map] at this
    have h2 : ((init ++ [last]).map (fun e => (relativeTime s.startTime e.1, val e))).Pairwise
        (fun a b => a.1 ≤ b.1) := by
      rw [List.pairwise_map]; exact this
    rw [List.map_append, List.map_cons, List.map_nil] at h2
    exact h2
  rw [seriesFold_filter _ _ hs]

/-- The window properties of one curve that holds the emitted points filtered by the
computed window start. -/
theorem window_of_filter (start : Int) (es : List Emission) (latest : Emission)
    (hlatest : latest ∈ es) (val : Emission → FloatBits) (c : List QPointF)
    (hsorted : (es.map (fun e => relativeTime start e.1)).Pairwise (· ≤ ·))
    (hc : c = (es.map (fun e => (relativeTime start e.1, val e))).filter
      (fun pt => decide (windowStart (relativeTime start latest.1) ≤ pt.1))) :
    (∀ pt ∈ c, pt.1 ≥ windowStart (relativeTime start latest.1)) ∧
    (∀ pt ∈ es.map (fun e => (relativeTime start e.1, val e)),
      pt.1 ≥ relativeTime start latest.1 - 10 → pt ∈ c) ∧
    c.Pairwise (fun a b => a.1 ≤ b.1) ∧
    ((∀ e ∈ es, start ≤ e.1 ∧ e.1 - start < 2 ^ (63 : ℕ)) →
      c = (es.map (fun e => (relativeTime start e.1, val e))).filter
        (fun pt => decide (relativeTime start latest.1 - 10 ≤ pt.1)) ∧
      ∀ pt ∈ c, pt.1 ≥ relativeTime start latest.1 - 10) := by
  have hrep : ∀ pt ∈ es.map (fun e => (relativeTime start e.1, val e)),
      ∃ e ∈ es, pt.1 = relativeTime start e.1 := by
    intro pt hpt
    obtain ⟨e, he, rfl⟩ := List.mem_map.mp hpt
    exact ⟨e, he, rfl⟩
  refine ⟨?_, ?_, ?_, ?_⟩
  · intro pt hpt
    rw [hc, List.mem_filter] at hpt
    exact of_decide_eq_true hpt.2
  · intro pt hpt hwin
    rw [hc, List.mem_filter]
    obtain ⟨e, _, hpe⟩ := hrep pt hpt
    refine ⟨hpt, decide_eq_true ?_⟩
    exact windowStart_le_of_sub_le (hpe ▸ representable_relativeTime start e.1) hwin
  · rw [hc]
    have : (es.map (fun e => (relativeTime start e.1, val e))).Pairwise
        (fun a b => a.1 ≤ b.1) := by
      rw [List.pairwise_map]
      rw [List.pairwise_map] at hsorted
      exact hsorted
    exact this.sublist (List.filter_sublist _)
  · intro hrange
    have hexact : c = (es.map (fun e => (relativeTime start e.1, val e))).filter
        (fun pt => decide (relativeTime start latest.1 - 10 ≤ pt.1)) := by
      rw [hc]
      apply List.filter_congr
      intro pt hpt
      obtain ⟨e, he, hpe⟩ := hrep pt hpt
      have hx : 0 ≤ pt.1 := hpe ▸ relativeTime_nonneg (hrange e he).1
      have hiff := windowStart_le_iff (representable_relativeTime start latest.1)
        (relativeTime_lt (hrange latest hlatest).2) hx
      by_cases hw : relativeTime start latest.1 - 10 ≤ pt.1
      · rw [decide_eq_true hw, decide_eq_true (hiff.mpr hw)]
      · rw [decide_eq_false hw, decide_eq_false (fun h => hw (hiff.mp h))]
    refine ⟨hexact, ?_⟩
    intro pt hpt
    rw [hexact, List.mem_filter] at hpt
    exact of_decide_eq_true hpt.2

/-- C10 (amended): after any non-empty run `earlier ++ [latest]` of updateChart calls with
non-decreasing relative times, starting from empty curves, each of the six curves holds
exactly the points emitted to it whose time is at least the double `minTime` that line 506
computes for newestTime - 10, in emission order.  Hence every retained point has time at
least that double, every point emitted with time >= newestTime - 10 is still retained, and
the retained times are non-decreasing.  When no clock reading is earlier than `startTime`
(and the millisecond counts fit `qint64`), the relative times are non-negative, the rounding
of line 506 cannot move the boundary across a point, and each curve is exactly the emitted
points with time >= newestTime - 10: every retained point has time >= newestTime - 10. -/
theorem C10_rolling_window (s : State) (earlier : List Emission) (latest : Emission)
    (hempty : curves s = [[], [], [], [], [], []])
    (hsorted : ((earlier ++ [latest]).map (fun e => relativeTime s.startTime e.1)).Pairwise
      (· ≤ ·)) :
    (curves (emitAll s (earlier ++ [latest]))).length = 6 ∧
    ∀ ce ∈ (curves (emitAll s (earlier ++ [latest]))).zip
        (emittedCurves s.startTime (earlier ++ [latest])),
      ce.1 = ce.2.filter (fun pt =>
        decide (windowStart (relativeTime s.startTime latest.1) ≤ pt.1)) ∧
      (∀ pt ∈ ce.1, pt.1 ≥ windowStart (relativeTime s.startTime latest.1)) ∧
      (∀ pt ∈ ce.2, pt.1 ≥ relativeTime s.startTime latest.1 - 10 → pt ∈ ce.1) ∧
      ce.1.Pairwise (fun a b => a.1 ≤ b.1) ∧
      ((∀ e ∈ earlier ++ [latest], s.startTime ≤ e.1 ∧ e.1 - s.startTime < 2 ^ (63 : ℕ)) →
        ce.1 = ce.2.filter
          (fun pt => decide (relativeTime s.startTime latest.1 - 10 ≤ pt.1)) ∧
        ∀ pt ∈ ce.1, pt.1 ≥ relativeTime s.startTime latest.1 - 10) := by
  have hne : earlier ++ [latest] ≠ [] := by simp
  have hlast : (earlier ++ [latest]).getLast hne = latest := by simp
  have hmem : latest ∈ earlier ++ [latest] := by simp
  generalize earlier ++ [latest] = es at hne hlast hsorted hmem ⊢
  have hparts : s.accelSeries.x = [] ∧ s.accelSeries.y = [] ∧ s.accelSeries.z = [] ∧
      s.gyroSeries.x = [] ∧ s.gyroSeries.y = [] ∧ s.gyroSeries.z = [] := by
    simpa [curves, Axis3.toList] using hempty
  obtain ⟨e1, e2, e3, e4, e5, e6⟩ := hparts
  have c1 := emitAll_curve (fun st => st.accelSeries.x) (fun e => e.2.1.x) (fun _ _ => rfl)
    s es hne e1 hsorted
  have c2 := emitAll_curve (fun st => st.accelSeries.y) (fun e => e.2.1.y) (fun _ _ => rfl)
    s es hne e2 hsorted
  have c3 := emitAll_curve (fun st => st.accelSeries.z) (fun e => e.2.1.z) (fun _ _ => rfl)
    s es hne e3 hsorted
  have c4 := emitAll_curve (fun st => st.gyroSeries.x) (fun e => e.2.2.x) (fun _ _ => rfl)
    s es hne e4 hsorted
  have c5 := emitAll_curve (fun st => st.gyroSeries.y) (fun e => e.2.2.y) (fun _ _ => rfl)
    s es hne e5 hsorted
  have c6 := emitAll_curve (fun st => st.gyroSeries.z) (fun e => e.2.2.z) (fun _ _ => rfl)
    s es hne e6 hsorted
  rw [hlast] at c1 c2 c3 c4 c5 c6
  dsimp only at c1 c2 c3 c4 c5 c6
  refine ⟨rfl, ?_⟩
  intro ce hce
  have key : ∀ (val : Emission → FloatBits) (c : List QPointF),
      c = (es.map (fun e => (relativeTime s.startTime e.1, val e))).filter
        (fun pt => decide (windowStart (relativeTime s.startTime latest.1) ≤ pt.1)) →
      ce = (c, es.map (fun e => (relativeTime s.startTime e.1, val e))) →
      ce.1 = ce.2.filter (fun pt =>
        decide (windowStart (relativeTime s.startTime latest.1) ≤ pt.1)) ∧
      (∀ pt ∈ ce.1, pt.1 ≥ windowStart (relativeTime s.startTime latest.1)) ∧
      (∀ pt ∈ ce.2, pt.1 ≥ relativeTime s.startTime latest.1 - 10 → pt ∈ ce.1) ∧
      ce.1.Pairwise (fun a b => a.1 ≤ b.1) ∧
      ((∀ e ∈ es, s.startTime ≤ e.1 ∧ e.1 - s.startTime < 2 ^ (63 : ℕ)) →
        ce.1 = ce.2.filter
          (fun pt => decide (relativeTime s.startTime latest.1 - 10 ≤ pt.1)) ∧
        ∀ pt ∈ ce.1, pt.1 ≥ relativeTime s.startTime latest.1 - 10) := by
    intro val c hc hcev
    subst hcev
    exact ⟨hc, window_of_filter s.startTime es latest hmem val c hsorted hc⟩
  simp only [curves, Axis3.toList, emittedCurves, List.cons_append, List.nil_append,
    List.zip_cons_cons, List.zip_nil_right, List.mem_cons, List.mem_nil_iff, or_false] at hce
  rcases hce with h | h | h | h | h | h
  · exact key (fun e => e.2.1.x) _ c1 h
  · exact key (fun e => e.2.1.y) _ c2 h
  · exact key (fun e => e.2.1.z) _ c3 h
  · exact key (fun e => e.2.2.x) _ c4 h
  · exact key (fun e => e.2.2.y) _ c5 h
  · exact key (fun e => e.2.2.z) _ c6 h

theorem C10_rolling_window_witness :
    (curves (State.init 0) = [[], [], [], [], [], []] ∧
      ((sampleEarlier ++ [sampleLatest]).map
        (fun e => relativeTime (State.init 0).startTime e.1)).Pairwise (· ≤ ·) ∧
      ∀ e ∈ sampleEarlier ++ [sampleLatest],
        (State.init 0).startTime ≤ e.1 ∧ e.1 - (State.init 0).startTime < 2 ^ (63 : ℕ)) ∧
    ((curves (emitAll (State.init 0) (sampleEarlier ++ [sampleLatest]))).length = 6 ∧
    ∀ ce ∈ (curves (emitAll (State.init 0) (sampleEarlier ++ [sampleLatest]))).zip
        (emittedCurves (State.init 0).startTime (sampleEarlier ++ [sampleLatest])),
      ce.1 = ce.2.filter (fun pt =>
        decide (windowStart (relativeTime (State.init 0).startTime sampleLatest.1) ≤ pt.1)) ∧
      (∀ pt ∈ ce.1, pt.1 ≥ windowStart (relativeTime (State.init 0).startTime sampleLatest.1)) ∧
      (∀ pt ∈ ce.2, pt.1 ≥ relativeTime (State.init 0).startTime sampleLatest.1 - 10 →
        pt ∈ ce.1) ∧
      ce.1.Pairwise (fun a b => a.1 ≤ b.1) ∧
      ((∀ e ∈ sampleEarlier ++ [sampleLatest],
          (State.init 0).startTime ≤ e.1 ∧ e.1 - (State.init 0).startTime < 2 ^ (63 : ℕ)) →
        ce.1 = ce.2.filter (fun pt =>
          decide (relativeTime (State.init 0).startTime sampleLatest.1 - 10 ≤ pt.1)) ∧
        ∀ pt ∈ ce.1, pt.1 ≥ relativeTime (State.init 0).startTime sampleLatest.1 - 10)) :=
  ⟨⟨rfl, sampleTimes_sorted, by
      intro e he
      simp only [sampleEarlier, sampleLatest, State.init, List.cons_append, List.nil_append,
        List.mem_cons, List.mem_nil_iff, or_false] at he
      rcases he with rfl | rfl | rfl | rfl <;> simp [State.init]⟩,
   C10_rolling_window (State.init 0) sampleEarlier sampleLatest rfl sampleTimes_sorted⟩

/-- C10 as stated fails: the chart is started at clock 10002 ms and the clock, set back,
reads 0 ms and then 10000 ms at two emissions.  The relative times are the doubles nearest
to -10.002 and -0.002, non-decreasing.  Line 506 rounds -0.002 - 10 to the double nearest
to -10.002, the time of the first point, so that point is not evicted, although its time
is less than newestTime - 10 (by about 6.7e-16 s). -/
theorem C10_rolling_window_counterexample :
    curves sampleLateStart = [[], [], [], [], [], []] ∧
    ((sampleBackdated ++ [sampleBackdatedLatest]).map
      (fun e => relativeTime sampleLateStart.startTime e.1)).Pairwise (· ≤ ·) ∧
    ∃ c ∈ curves (emitAll sampleLateStart (sampleBackdated ++ [sampleBackdatedLatest])),
      ∃ pt ∈ c, pt.1 < relativeTime sampleLateStart.startTime sampleBackdatedLatest.1 - 10 := by
  have hle : relativeTime 10002 0 ≤ relativeTime 10002 10000 := by
    rw [relativeTime_backdated, relativeTime_backdatedLatest]; norm_num
  have hsorted : ((sampleBackdated ++ [sampleBackdatedLatest]).map
      (fun e => relativeTime sampleLateStart.startTime e.1)).Pairwise (· ≤ ·) := by
    simp only [sampleBackdated, sampleBackdatedLatest, sampleLateStart, State.init,
      List.cons_append, List.nil_append, List.map_cons, List.map_nil, List.pairwise_cons,
      List.mem_cons, List.mem_nil_iff, or_false, forall_eq, List.Pairwise.nil, and_true,
      false_imp_iff, implies_true]
    exact hle
  refine ⟨rfl, hsorted, ?_⟩
  have hcurve := emitAll_curve (fun st => st.accelSeries.x) (fun e => e.2.1.x)
    (fun _ _ => rfl) sampleLateStart (sampleBackdated ++ [sampleBackdatedLatest])
    (by simp) rfl hsorted
  refine ⟨(emitAll sampleLateStart (sampleBackdated ++ [sampleBackdatedLatest])).accelSeries.x,
    by simp [curves, Axis3.toList], (relativeTime 10002 0, sampleMean.x), ?_, ?_⟩
  · dsimp only at hcurve
    rw [hcurve, List.mem_filter]
    refine ⟨by simp [sampleBackdated, sampleLateStart, State.init], decide_eq_true ?_⟩
    have hl : ((sampleBackdated ++ [sampleBackdatedLatest]).getLast (by simp)).1 = 10000 := by
      simp [sampleBackdatedLatest]
    rw [hl]
    show windowStart (relativeTime 10002 10000) ≤ relativeTime 10002 0
    rw [windowStart_backdatedLatest]
  · show relativeTime 10002 0 < relativeTime 10002 10000 - 10
    rw [relativeTime_backdated, relativeTime_backdatedLatest]
    norm_num

/-! ## The extraction loop on an arbitrary buffer -/

theorem parseLoop_fail (fp : FloatOps) (clock : Nat → Clock) (m c : Nat) (s s1 : State)
    (hlen : FRAME_SIZE ≤ s.receiveBuffer.length)
    (hp : parseReceivedData fp (clock c) s = some (1, s1)) :
    parseLoop fp clock (m + 1) c s = some s1 := by
  rw [parseLoop, if_pos hlen, hp]
  rfl

theorem parseLoop_success (fp : FloatOps) (clock : Nat → Clock) (m c : Nat) (s s1 : State)
    (hlen : FRAME_SIZE ≤ s.receiveBuffer.length)
    (hp : parseReceivedData fp (clock c) s = some (0, s1)) :
    parseLoop fp clock (m + 1) c s =
      if s1.receiveBuffer.length > FRAME_SIZE * 3 then
        some { s1 with
               validFramesReceived := s1.validFramesReceived + 1
               receiveBuffer := []
               invalidFramesReceived := s1.invalidFramesReceived + 1 }
      else parseLoop fp clock m (c + 1)
        { s1 with validFramesReceived := s1.validFramesReceived + 1 } := by
  rw [parseLoop, if_pos hlen, hp]
  dsimp only
  rw [if_pos rfl]
  unfold overflowGuard
  dsimp only
  by_cases hov : s1.receiveBuffer.length > FRAME_SIZE * 3
  · rw [if_pos hov, if_pos hov]
  · rw [if_neg hov, if_neg hov]

theorem parseLoop_cap_free (fp : FloatOps) (clock : Nat → Clock) :
    ∀ (k n c : Nat) (s : State), s.receiveBuffer.length < FRAME_SIZE * (k + 1) → k ≤ n →
      ∃ s' new, parseLoop fp clock n c s = some s' ∧ parseLoop fp clock k c s = some s' ∧
        new.length ≤ k ∧ LoopEffect s s' new := by
  intro k
  induction k with
  | zero =>
    intro n c s hlen _
    have hshort : s.receiveBuffer.length < FRAME_SIZE := by omega
    refine ⟨s, [], parseLoop_short fp clock n c s hshort, rfl, le_refl _, ?_⟩
    exact ⟨by simp, by simp, Or.inl rfl⟩
  | succ k ih =>
    intro n c s hlen hn
    obtain ⟨n', rfl⟩ : ∃ n', n = n' + 1 := ⟨n - 1, by omega⟩
    by_cases hshort : s.receiveBuffer.length < FRAME_SIZE
    · refine ⟨s, [], parseLoop_short fp clock _ c s hshort,
        parseLoop_short fp clock _ c s hshort, Nat.zero_le _, ?_⟩
      exact ⟨by simp, by simp, Or.inl rfl⟩
    · have hge : FRAME_SIZE ≤ s.receiveBuffer.length := by omega
      rcases parseReceivedData_spec fp (clock c) s with ⟨b, hp, _, _⟩ | ⟨i, hfit, _, _, _, hp⟩
      · rw [parseLoop_fail fp clock n' c s _ hge hp, parseLoop_fail fp clock k c s _ hge hp]
        refine ⟨_, [], rfl, rfl, Nat.zero_le _, ?_⟩
        exact ⟨by simp, by simp, Or.inl rfl⟩
      · rw [parseLoop_success fp clock n' c s _ hge hp,
          parseLoop_success fp clock k c s _ hge hp]
        obtain ⟨_, _, f3, f4, f5⟩ := acceptFrame_fields fp (clock c)
          ((s.receiveBuffer.drop (i + 2)).take 216) s
        dsimp only
        by_cases hov : (s.receiveBuffer.drop (i + 222)).length > FRAME_SIZE * 3
        · rw [if_pos hov, if_pos hov]
          refine ⟨_, [(s.receiveBuffer.drop (i + 2)).take 216], rfl, rfl, by simp, ?_⟩
          exact ⟨f5, by rw [← f3]; rfl, Or.inr ⟨by rw [← f4], by simp, rfl⟩⟩
        · rw [if_neg hov, if_neg hov]
          have hlen2 : (s.receiveBuffer.drop (i + 222)).length < FRAME_SIZE * (k + 1) := by
            rw [List.length_drop]
            rw [FRAME_SIZE_eq] at *
            omega
          obtain ⟨s', new, h1, h2, h3, e1, e2, e3⟩ := ih n' (c + 1)
            { ({ acceptFrame fp (clock c) ((s.receiveBuffer.drop (i + 2)).take 216) s with
                 receiveBuffer := s.receiveBuffer.drop (i + 222) } : State) with
              validFramesReceived :=
                (acceptFrame fp (clock c) ((s.receiveBuffer.drop (i + 2)).take 216)
                  s).validFramesReceived + 1 }
            hlen2 (by omega)
          refine ⟨s', (s.receiveBuffer.drop (i + 2)).take 216 :: new, h1, h2, by simp; omega, ?_⟩
          dsimp only at e1 e2 e3
          refine ⟨?_, ?_, ?_⟩
          · rw [e1, f5]; simp
          · rw [e2, f3]; simp; omega
          · rcases e3 with e3 | ⟨e3, _, e4⟩
            · left; rw [e3, f4]
            · right; exact ⟨by rw [e3, f4], by simp, e4⟩


theorem parseLoop_first (fp : FloatOps) (clock : Nat → Clock) (n c : Nat) (s : State)
    (hn : 3 ≤ n) :
    ∃ s' new, parseLoop fp clock (n + 1) c s = some s' ∧ parseLoop fp clock 4 c s = some s' ∧
      new.length ≤ 4 ∧ LoopEffect s s' new := by
  by_cases hshort : s.receiveBuffer.length < FRAME_SIZE
  · refine ⟨s, [], parseLoop_short fp clock _ c s hshort,
      parseLoop_short fp clock _ c s hshort, Nat.zero_le _, ?_⟩
    exact ⟨by simp, by simp, Or.inl rfl⟩
  · have hge : FRAME_SIZE ≤ s.receiveBuffer.length := by omega
    rcases parseReceivedData_spec fp (clock c) s with ⟨b, hp, _, _⟩ | ⟨i, hfit, _, _, _, hp⟩
    · rw [parseLoop_fail fp clock n c s _ hge hp, parseLoop_fail fp clock 3 c s _ hge hp]
      refine ⟨_, [], rfl, rfl, Nat.zero_le _, ?_⟩
      exact ⟨by simp, by simp, Or.inl rfl⟩
    · rw [parseLoop_success fp clock n c s _ hge hp, parseLoop_success fp clock 3 c s _ hge hp]
      obtain ⟨_, _, f3, f4, f5⟩ := acceptFrame_fields fp (clock c)
        ((s.receiveBuffer.drop (i + 2)).take 216) s
      dsimp only
      by_cases hov : (s.receiveBuffer.drop (i + 222)).length > FRAME_SIZE * 3
      · rw [if_pos hov, if_pos hov]
        refine ⟨_, [(s.receiveBuffer.drop (i + 2)).take 216], rfl, rfl, by simp, ?_⟩
        exact ⟨f5, by rw [← f3]; rfl, Or.inr ⟨by rw [← f4], by simp, rfl⟩⟩
      · rw [if_neg hov, if_neg hov]
        obtain ⟨s', new, h1, h2, h3, e1, e2, e3⟩ := parseLoop_cap_free fp clock 3 n (c + 1)
          { ({ acceptFrame fp (clock c) ((s.receiveBuffer.drop (i + 2)).take 216) s with
               receiveBuffer := s.receiveBuffer.drop (i + 222) } : State) with
            validFramesReceived :=
              (acceptFrame fp (clock c) ((s.receiveBuffer.drop (i + 2)).take 216)
                s).validFramesReceived + 1 }
          (by dsimp only; rw [FRAME_SIZE_eq] at *; omega) hn
        refine ⟨s', (s.receiveBuffer.drop (i + 2)).take 216 :: new, h1, h2, by simp; omega, ?_⟩
        dsimp only at e1 e2 e3
        refine ⟨?_, ?_, ?_⟩
        · rw [e1, f5]; simp
        · rw [e2, f3]; simp; omega
        · rcases e3 with e3 | ⟨e3, _, e4⟩
          · left; rw [e3, f4]
          · right; exact ⟨by rw [e3, f4], by simp, e4⟩

theorem parseLoop_invariant (fp : FloatOps) (clock : Nat → Clock) (I : State → Prop)
    (hbuf : ∀ (t : State) (b : List Byte) (n m : Nat), I t →
      I { t with receiveBuffer := b, totalBytesReceived := n, invalidFramesReceived := m })
    (hframe : ∀ (t : State) (c : Clock) (p r : List Byte), p.length = 216 → I t →
      I (afterFrame fp c p r t)) :
    ∀ (n c : Nat) (s : State), I s → ∃ s', parseLoop fp clock n c s = some s' ∧ I s' := by
  intro n
  induction n with
  | zero => intro c s h; exact ⟨s, rfl, h⟩
  | succ n ih =>
    intro c s h
    by_cases hshort : s.receiveBuffer.length < FRAME_SIZE
    · exact ⟨s, parseLoop_short fp clock _ c s hshort, h⟩
    · have hge : FRAME_SIZE ≤ s.receiveBuffer.length := by omega
      rcases parseReceivedData_spec fp (clock c) s with ⟨b, hp, _, _⟩ | ⟨i, hfit, _, _, _, hp⟩
      · rw [parseLoop_fail fp clock n c s _ hge hp]
        exact ⟨_, rfl, hbuf s b s.totalBytesReceived s.invalidFramesReceived h⟩
      · rw [parseLoop_success fp clock n c s _ hge hp]
        have hlen216 : ((s.receiveBuffer.drop (i + 2)).take 216).length = 216 := by
          rw [List.length_take, List.length_drop]
          rw [FRAME_SIZE_eq] at hfit
          omega
        have hacc := hframe s (clock c) ((s.receiveBuffer.drop (i + 2)).take 216)
          (s.receiveBuffer.drop (i + 222)) hlen216 h
        dsimp only
        by_cases hov : (s.receiveBuffer.drop (i + 222)).length > FRAME_SIZE * 3
        · rw [if_pos hov]
          exact ⟨_, rfl, hbuf _ [] _ _ hacc⟩
        · rw [if_neg hov]
          exact ih (c + 1) _ hacc

theorem feed_invariant (fp : FloatOps) (I : State → Prop)
    (hbuf : ∀ (t : State) (b : List Byte) (n m : Nat), I t →
      I { t with receiveBuffer := b, totalBytesReceived := n, invalidFramesReceived := m })
    (hframe : ∀ (t : State) (c : Clock) (p r : List Byte), p.length = 216 → I t →
      I (afterFrame fp c p r t)) :
    ∀ (chunks : List (List Byte)) (clock : Nat → Nat → Clock) (s : State), I s →
      ∃ s', feed fp clock s chunks = some s' ∧ I s' := by
  intro chunks
  induction chunks with
  | nil => intro _ s h; exact ⟨s, rfl, h⟩
  | cons c cs ih =>
    intro clock s h
    rw [feed, onSerialDataReceived]
    obtain ⟨s1, h1, hI1⟩ := parseLoop_invariant fp (clock 0) I hbuf hframe MAX_PARSE_PER_CALL 0
      { s with
        totalBytesReceived := s.totalBytesReceived + c.length
        receiveBuffer := s.receiveBuffer ++ c }
      (hbuf s _ _ s.invalidFramesReceived h)
    rw [h1]
    exact ih (fun n => clock (n + 1)) s1 hI1

/-! ## Claim C12: in-bounds reads -/

/-- C12: parseReceivedData never reads outside the receive buffer.  In the embedding a
`memcmp` or `memcpy` returns `none` exactly when its byte range leaves the buffer; for every
buffer of every length the scan loop never reports such a read and parseReceivedData returns
a result, so the header compare at `i`, the tail compare at `i + 218` and the payload copy
from `i + 2` all stay below the current length. -/
theorem C12_in_bounds_reads (fp : FloatOps) (clock : Clock) (s : State) :
    (∃ r s', parseReceivedData fp clock s = some (r, s')) ∧
    (FRAME_SIZE ≤ s.receiveBuffer.length →
      scanFrom s.receiveBuffer (s.receiveBuffer.length - HEAD_SIZE + 1) 0 ≠ Scan.fault) ∧
    (∀ (buf pat : List Byte) (pos n : Nat),
      memcmpEq buf pos pat n = none ↔ buf.length < pos + n) ∧
    (∀ (buf : List Byte) (pos n : Nat), memcpyFrom buf pos n = none ↔ buf.length < pos + n) := by
  refine ⟨?_, ?_, ?_, ?_⟩
  · rcases parseReceivedData_spec fp clock s with ⟨b, hp, _, _⟩ | ⟨i, _, _, _, _, hp⟩
    · exact ⟨_, _, hp⟩
    · exact ⟨_, _, hp⟩
  · intro hlen hfault
    have hspec := scanFrom_spec s.receiveBuffer (s.receiveBuffer.length - HEAD_SIZE + 1) 0
      (by rw [FRAME_SIZE_eq] at hlen; rw [HEAD_SIZE_eq]; omega)
    rw [hfault] at hspec
    exact hspec
  · intro buf pat pos n
    unfold memcmpEq
    by_cases h : pos + n ≤ buf.length
    · rw [if_pos h]; simp; omega
    · rw [if_neg h]; simp; omega
  · intro buf pos n
    unfold memcpyFrom
    by_cases h : pos + n ≤ buf.length
    · rw [if_pos h]; simp; omega
    · rw [if_neg h]; simp; omega

/-! ## Claim C14: frames per invocation -/

/-- C14: one invocation of onSerialDataReceived extracts at most 4 frames, whatever the
buffer held and whatever bytes arrive.  The overflow guard leaves at most 3 * FRAME_SIZE bytes
or an empty buffer, the loop gives the same result for every cap of at least 4 in place of
MAX_PARSE_PER_CALL = 10 (so the cap never ends it), and the invalid-frame counter grows, by
one, only in an invocation that extracted a frame. -/
theorem C14_at_most_four_frames (fp : FloatOps) (clock : Nat → Clock) (s : State)
    (newData : List Byte) :
    ∃ s' new, onSerialDataReceived fp clock s newData = some s' ∧
      s'.extracted = s.extracted ++ new ∧ new.length ≤ 4 ∧
      s'.validFramesReceived = s.validFramesReceived + new.length ∧
      (s'.invalidFramesReceived = s.invalidFramesReceived ∨
        (s'.invalidFramesReceived = s.invalidFramesReceived + 1 ∧ 0 < new.length ∧
          s'.receiveBuffer = [])) ∧
      (∀ t : State, (overflowGuard t).2.receiveBuffer.length ≤ 3 * FRAME_SIZE ∧
        ((overflowGuard t).1 = true → (overflowGuard t).2.receiveBuffer = [])) ∧
      (∀ cap, 4 ≤ cap →
        parseLoop fp clock cap 0
          { s with
            totalBytesReceived := s.totalBytesReceived + newData.length
            receiveBuffer := s.receiveBuffer ++ newData } = some s') ∧
      MAX_PARSE_PER_CALL = 10 := by
  unfold onSerialDataReceived
  obtain ⟨s', new, h1, h2, h3, e1, e2, e3⟩ := parseLoop_first fp clock 9 0
    { s with
      totalBytesReceived := s.totalBytesReceived + newData.length
      receiveBuffer := s.receiveBuffer ++ newData } (by decide)
  refine ⟨s', new, h1, e1, h3, e2, e3, ?_, ?_, rfl⟩
  · intro t
    unfold overflowGuard
    by_cases hov : t.receiveBuffer.length > FRAME_SIZE * 3
    · rw [if_pos hov]
      exact ⟨by simp, fun _ => rfl⟩
    · rw [if_neg hov]
      exact ⟨by dsimp only; omega, fun h => absurd h (by simp)⟩
  · intro cap hcap
    obtain ⟨n, rfl⟩ : ∃ n, cap = n + 1 := ⟨cap - 1, by omega⟩
    obtain ⟨s'', _, k1, k2, _, _⟩ := parseLoop_first fp clock n 0
      { s with
        totalBytesReceived := s.totalBytesReceived + newData.length
        receiveBuffer := s.receiveBuffer ++ newData } (by omega)
    rw [k1]
    rw [h2] at k2
    exact k2.symm

/-! ## Claim C11: recorder flush policy -/

theorem chartTick_recorder (t : Int) (s : State) :
    (chartTick t s).fileStream = s.fileStream ∧
    (chartTick t s).isSaving = s.isSaving ∧
    (chartTick t s).dataValid = s.dataValid := by
  unfold chartTick
  dsimp only
  split <;> exact ⟨rfl, rfl, rfl⟩

theorem saveDataToFile_open (t : Int) (s : State) (stream : TextStream)
    (hs : s.isSaving = true) (hv : s.dataValid = true) (hf : s.fileStream = some stream) :
    (saveDataToFile t s).isSaving = true ∧
    (saveDataToFile t s).fileStream = some
      ⟨stream.written ++ [(t, s.imuData)],
       if s.validFramesReceived % 100 = 0
       then stream.flushedAt ++ [(stream.written ++ [(t, s.imuData)]).length]
       else stream.flushedAt⟩ := by
  unfold saveDataToFile
  rw [hf]
  dsimp only
  rw [if_neg (by rw [hs, hv]; decide)]
  exact ⟨hs, rfl⟩

theorem acceptFrame_recorder (fp : FloatOps) (c : Clock) (p : List Byte) (s : State)
    (stream : TextStream) (hs : s.isSaving = true) (hf : s.fileStream = some stream) :
    (acceptFrame fp c p s).isSaving = true ∧
    (acceptFrame fp c p s).fileStream = some
      ⟨stream.written ++ [(c.saveNow, decodePayload p)],
       if s.validFramesReceived % 100 = 0
       then stream.flushedAt ++ [stream.written.length + 1]
       else stream.flushedAt⟩ := by
  unfold acceptFrame
  obtain ⟨k1, k2, k3⟩ := chartTick_recorder c.chartNow (storeReadings fp p s)
  obtain ⟨_, j2, j3, _⟩ := chartTick_fields c.chartNow (storeReadings fp p s)
  have hs' : (chartTick c.chartNow (storeReadings fp p s)).isSaving = true := by
    rw [k2]; exact hs
  have hv' : (chartTick c.chartNow (storeReadings fp p s)).dataValid = true := by
    rw [k3]; rfl
  have hf' : (chartTick c.chartNow (storeReadings fp p s)).fileStream = some stream := by
    rw [k1]; exact hf
  obtain ⟨a1, a2⟩ := saveDataToFile_open c.saveNow _ stream hs' hv' hf'
  refine ⟨a1, ?_⟩
  show (saveDataToFile c.saveNow (chartTick c.chartNow (storeReadings fp p s))).fileStream = _
  rw [a2, j2, j3]
  simp only [List.length_append, List.length_singleton]
  rfl

theorem recording_frame (fp : FloatOps) (v0 e0 : Nat) (t : State) (c : Clock)
    (p r : List Byte) (h : Recording v0 e0 t) : Recording v0 e0 (afterFrame fp c p r t) := by
  obtain ⟨hs, he, stream, hf, hv, hw, hfl⟩ := h
  obtain ⟨a1, a2⟩ := acceptFrame_recorder fp c p t stream hs hf
  obtain ⟨_, _, f3, _, f5⟩ := acceptFrame_fields fp c p t
  refine ⟨a1, ?_, _, a2, ?_, ?_, ?_⟩
  · show e0 ≤ (acceptFrame fp c p t).extracted.length
    rw [f5, List.length_append]; omega
  · show (acceptFrame fp c p t).validFramesReceived + 1 = _
    rw [f3, hv]
    simp only [List.length_append, List.length_singleton]
    omega
  · show _ = List.map decodePayload (List.drop e0 (acceptFrame fp c p t).extracted)
    rw [f5, List.drop_append_of_le_length he]
    simp only [List.map_append, List.map_cons, List.map_nil, hw]
  · dsimp only
    simp only [List.length_append, List.length_singleton]
    rw [List.range_succ, List.filter_append, List.map_append, ← hfl, hv]
    by_cases hm : (v0 + stream.written.length) % 100 = 0
    · rw [if_pos hm]
      simp [hm]
    · rw [if_neg hm]
      simp [hm]

theorem recording_buffer (v0 e0 : Nat) (t : State) (b : List Byte) (n m : Nat)
    (h : Recording v0 e0 t) :
    Recording v0 e0
      { t with receiveBuffer := b, totalBytesReceived := n, invalidFramesReceived := m } := h

theorem recording_start (s : State) :
    Recording s.validFramesReceived s.extracted.length (startSaving true s) := by
  refine ⟨rfl, le_refl _, ⟨[], []⟩, rfl, rfl, ?_, rfl⟩
  show _ = List.map decodePayload (List.drop s.extracted.length s.extracted)
  simp


theorem recording_feed (fp : FloatOps) (clock : Nat → Nat → Clock) (s : State)
    (chunks : List (List Byte)) :
    ∃ s', feed fp clock (startSaving true s) chunks = some s' ∧
      Recording s.validFramesReceived s.extracted.length s' :=
  feed_invariant fp (Recording s.validFramesReceived s.extracted.length)
    (fun t b n m h => recording_buffer _ _ t b n m h)
    (fun t c p r _ h => recording_frame fp _ _ t c p r h)
    chunks clock (startSaving true s) (recording_start s)

theorem flush_rows_offset_one (v0 : Nat) (h : v0 % 100 = 1) :
    ((List.range 250).filter (fun j => (v0 + j) % 100 = 0)).map (· + 1) = [100, 200] := by
  have e : (List.range 250).filter (fun j => decide ((v0 + j) % 100 = 0))
      = (List.range 250).filter (fun j => decide (j % 100 = 99)) := by
    apply List.filter_congr
    intro j _
    have : ((v0 + j) % 100 = 0) ↔ (j % 100 = 99) := by omega
    simp [this]
  rw [e]
  decide

theorem flush_rows_offset_zero (v0 : Nat) (h : v0 % 100 = 0) :
    ((List.range 250).filter (fun j => (v0 + j) % 100 = 0)).map (· + 1) = [1, 101, 201] := by
  have e : (List.range 250).filter (fun j => decide ((v0 + j) % 100 = 0))
      = (List.range 250).filter (fun j => decide (j % 100 = 0)) := by
    apply List.filter_congr
    intro j _
    have : ((v0 + j) % 100 = 0) ↔ (j % 100 = 0) := by omega
    simp [this]
  rw [e]
  decide

theorem flush_rows_at_least_two (v0 : Nat) :
    2 ≤ (((List.range 250).filter (fun j => (v0 + j) % 100 = 0)).map (· + 1)).length := by
  have hpos : ∀ (L : List Nat) (j : Nat), j ∈ L → (v0 + j) % 100 = 0 →
      1 ≤ (L.filter (fun j => decide ((v0 + j) % 100 = 0))).length := by
    intro L j hj hp
    have : j ∈ L.filter (fun j => decide ((v0 + j) % 100 = 0)) :=
      List.mem_filter.mpr ⟨hj, decide_eq_true hp⟩
    exact List.length_pos_of_mem this
  have hsplit : List.range 250 = List.range 100 ++ (List.range 150).map (100 + ·) :=
    List.range_add 100 150
  rw [List.length_map, hsplit, List.filter_append, List.length_append]
  have h1 := hpos (List.range 100) ((100 - v0 % 100) % 100)
    (List.mem_range.mpr (Nat.mod_lt _ (by decide))) (by omega)
  have h2 := hpos ((List.range 150).map (100 + ·)) (100 + (100 - v0 % 100) % 100)
    (List.mem_map.mpr ⟨(100 - v0 % 100) % 100, List.mem_range.mpr (by omega), rfl⟩) (by omega)
  omega

theorem onSerial_frame (fp : FloatOps) (clock : Nat → Clock) (s : State) (p : List Byte)
    (hp : p.length = 216) (hs : s.receiveBuffer = []) :
    ∃ s1, onSerialDataReceived fp clock s (frame p) = some s1 ∧
      s1.receiveBuffer = [] ∧ s1.validFramesReceived = s.validFramesReceived + 1 := by
  obtain ⟨s', h1, h2, _, _, h5, _⟩ := feed_single fp p hp [frame p] (fun _ => clock) s []
    (by rw [hs]; simp) (by rw [hs]; simp) (noHead_nil_cons _)
  rw [feed] at h1
  cases hres : onSerialDataReceived fp clock s (frame p) with
  | none => rw [hres] at h1; exact Option.noConfusion h1
  | some s1 =>
    rw [hres] at h1
    have : s1 = s' := Option.some.inj h1
    subst this
    exact ⟨s1, rfl, h2, h5⟩

theorem feed_each_frame (fp : FloatOps) (p : List Byte) (hp : p.length = 216) :
    ∀ (n : Nat) (clock : Nat → Nat → Clock) (s : State), s.receiveBuffer = [] →
      ∃ s', feed fp clock s (List.replicate n (frame p)) = some s' ∧
        s'.receiveBuffer = [] ∧ s'.validFramesReceived = s.validFramesReceived + n := by
  intro n
  induction n with
  | zero => intro _ s hs; exact ⟨s, rfl, hs, rfl⟩
  | succ n ih =>
    intro clock s hs
    obtain ⟨s1, h1, hb, hv⟩ := onSerial_frame fp (clock 0) s p hp hs
    obtain ⟨s', h2, hb', hv'⟩ := ih (fun c => clock (c + 1)) s1 hb
    refine ⟨s', ?_, hb', by rw [hv', hv]; omega⟩
    rw [List.replicate_succ, feed, h1]
    exact h2

/-- C11 (amended): in a recording session opened by startSaving, whatever bytes arrive,
saveDataToFile appends exactly one row per decoded frame, with the readings of that frame,
and flushes right after row `j + 1` exactly when the valid-frame counter, which counts the
frames decoded since the program started and is read before the current frame is counted,
is a multiple of 100: `(v0 + j) % 100 = 0` for a session started at counter `v0`.  Flushes are
100 rows apart; in 250 rows there are at least two, at rows 100 and 200 when `v0 % 100 = 1`
and at rows 1, 101 and 201 when `v0 % 100 = 0`. -/
theorem C11_flush_policy (fp : FloatOps) (clock : Nat → Nat → Clock) (s : State)
    (chunks : List (List Byte)) :
    ∃ s' stream, feed fp clock (startSaving true s) chunks = some s' ∧
      s'.isSaving = true ∧ s'.fileStream = some stream ∧
      s'.validFramesReceived = s.validFramesReceived + stream.written.length ∧
      stream.written.map Prod.snd
        = (s'.extracted.drop s.extracted.length).map decodePayload ∧
      stream.flushedAt =
        ((List.range stream.written.length).filter
          (fun j => (s.validFramesReceived + j) % 100 = 0)).map (· + 1) ∧
      (stream.written.length = 250 → 2 ≤ stream.flushedAt.length) ∧
      (stream.written.length = 250 → s.validFramesReceived % 100 = 1 →
        stream.flushedAt = [100, 200]) ∧
      (stream.written.length = 250 → s.validFramesReceived % 100 = 0 →
        stream.flushedAt = [1, 101, 201]) := by
  obtain ⟨s', h1, hs, _, stream, hf, hv, hw, hfl⟩ := recording_feed fp clock s chunks
  refine ⟨s', stream, h1, hs, hf, hv, hw, hfl, ?_, ?_, ?_⟩
  · intro h250
    rw [hfl, h250]
    exact flush_rows_at_least_two _
  · intro h250 hmod
    rw [hfl, h250]
    exact flush_rows_offset_one _ hmod
  · intro h250 hmod
    rw [hfl, h250]
    exact flush_rows_offset_zero _ hmod

theorem C11_flush_policy_counterexample :
    ∃ s' stream, feed sampleOps sampleClock (startSaving true (State.init 0))
        (List.replicate 250 (frame samplePayload)) = some s' ∧
      s'.fileStream = some stream ∧
      stream.written.length = 250 ∧
      stream.flushedAt = [1, 101, 201] ∧
      stream.flushedAt ≠ [100, 200] := by
  obtain ⟨s', h1, _, _, stream, hf, hv, _, hfl⟩ := recording_feed sampleOps sampleClock
    (State.init 0) (List.replicate 250 (frame samplePayload))
  obtain ⟨s'', k1, _, kv⟩ := feed_each_frame sampleOps samplePayload samplePayload_length 250
    sampleClock (startSaving true (State.init 0)) rfl
  rw [h1] at k1
  have hsame : s' = s'' := Option.some.inj k1
  subst hsame
  have hlen : stream.written.length = 250 := by
    rw [hv] at kv
    have h0 : (State.init 0).validFramesReceived = 0 := rfl
    have h0' : (startSaving true (State.init 0)).validFramesReceived = 0 := rfl
    omega
  have hrows : stream.flushedAt = [1, 101, 201] := by
    rw [hfl, hlen]
    exact flush_rows_offset_zero _ rfl
  refine ⟨s', stream, h1, hf, hlen, hrows, ?_⟩
  rw [hrows]
  decide

/-! ## Claim C13: chart downsampling -/

theorem Chart_FPS_eq : Chart_FPS = 10 := rfl

theorem everyTenth_snoc {α : Type} (fs : List α) (f : α) :
    everyTenth (fs ++ [f]) =
      if (fs.length + 1) % Chart_FPS = 0 then everyTenth fs ++ [f] else everyTenth fs := by
  unfold everyTenth
  rw [List.enum_append, List.filter_append, List.map_append, List.enumFrom_singleton]
  by_cases h : (fs.length + 1) % Chart_FPS = 0
  · rw [if_pos h, List.filter_cons_of_pos (by simpa using h)]
    rfl
  · rw [if_neg h, List.filter_cons_of_neg (by simpa using h)]
    simp

theorem everyTenth_length {α : Type} (fs : List α) :
    (everyTenth fs).length = fs.length / Chart_FPS := by
  induction fs using List.reverseRecOn with
  | nil => simp [everyTenth]
  | append_singleton fs f ih =>
    rw [everyTenth_snoc, List.length_append, List.length_singleton]
    rw [Chart_FPS_eq] at *
    by_cases h : (fs.length + 1) % 10 = 0
    · rw [if_pos h, List.length_append, List.length_singleton, ih]; omega
    · rw [if_neg h, ih]; omega

theorem everyTenth_getElem? {α : Type} (fs : List α) :
    ∀ j, (everyTenth fs)[j]? = fs[Chart_FPS * j + (Chart_FPS - 1)]? := by
  induction fs using List.reverseRecOn with
  | nil => intro j; simp [everyTenth]
  | append_singleton fs f ih =>
    intro j
    have hl := everyTenth_length fs
    rw [everyTenth_snoc]
    rw [Chart_FPS_eq] at *
    by_cases h : (fs.length + 1) % 10 = 0
    · rw [if_pos h]
      by_cases hj : j < fs.length / 10
      · rw [List.getElem?_append_left (by omega), ih j,
          List.getElem?_append_left (by omega)]
      · by_cases hj2 : j = fs.length / 10
        · rw [List.getElem?_append_right (by omega),
            List.getElem?_append_right (by omega)]
          have e1 : j - (everyTenth fs).length = 0 := by omega
          have e2 : 10 * j + (10 - 1) - fs.length = 0 := by omega
          rw [e1, e2]
        · rw [List.getElem?_eq_none (by simp; omega), List.getElem?_eq_none (by simp; omega)]
    · rw [if_neg h, ih j]
      by_cases hj : 10 * j + (10 - 1) < fs.length
      · rw [List.getElem?_append_left hj]
      · rw [List.getElem?_eq_none (by omega), List.getElem?_eq_none (by simp; omega)]

theorem saveDataToFile_chart (t : Int) (s : State) :
    (saveDataToFile t s).chartUpdateCounter = s.chartUpdateCounter ∧
    (saveDataToFile t s).accelSeries = s.accelSeries ∧
    (saveDataToFile t s).gyroSeries = s.gyroSeries ∧
    (saveDataToFile t s).startTime = s.startTime := by
  unfold saveDataToFile
  split
  · exact ⟨rfl, rfl, rfl, rfl⟩
  · split <;> exact ⟨rfl, rfl, rfl, rfl⟩

theorem chartTick_emit (now : Int) (s : State) (h : s.chartUpdateCounter + 1 ≥ Chart_FPS) :
    (chartTick now s).chartUpdateCounter = 0 ∧
    (chartTick now s).accelSeries
      = (updateChart now s.lastMeanAccel s.lastMeanGyro s).accelSeries ∧
    (chartTick now s).gyroSeries
      = (updateChart now s.lastMeanAccel s.lastMeanGyro s).gyroSeries ∧
    (chartTick now s).startTime = s.startTime := by
  unfold chartTick
  dsimp only
  rw [if_pos h]
  exact ⟨rfl, rfl, rfl, rfl⟩

theorem chartTick_skip (now : Int) (s : State) (h : ¬ s.chartUpdateCounter + 1 ≥ Chart_FPS) :
    (chartTick now s).chartUpdateCounter = s.chartUpdateCounter + 1 ∧
    (chartTick now s).accelSeries = s.accelSeries ∧
    (chartTick now s).gyroSeries = s.gyroSeries ∧
    (chartTick now s).startTime = s.startTime := by
  unfold chartTick
  dsimp only
  rw [if_neg h]
  exact ⟨rfl, rfl, rfl, rfl⟩

theorem afterFrame_chart_emit (fp : FloatOps) (c : Clock) (p r : List Byte) (t : State)
    (h : t.chartUpdateCounter + 1 ≥ Chart_FPS) :
    (afterFrame fp c p r t).chartUpdateCounter = 0 ∧
    (afterFrame fp c p r t).accelSeries
      = (updateChart c.chartNow (means fp (decodePayload p)).1 (means fp (decodePayload p)).2
          t).accelSeries ∧
    (afterFrame fp c p r t).gyroSeries
      = (updateChart c.chartNow (means fp (decodePayload p)).1 (means fp (decodePayload p)).2
          t).gyroSeries ∧
    (afterFrame fp c p r t).startTime = t.startTime := by
  obtain ⟨a1, a2, a3, a4⟩ := chartTick_emit c.chartNow (storeReadings fp p t) h
  obtain ⟨b1, b2, b3, b4⟩ := saveDataToFile_chart c.saveNow
    (chartTick c.chartNow (storeReadings fp p t))
  refine ⟨?_, ?_, ?_, ?_⟩
  · show (saveDataToFile _ _).chartUpdateCounter = 0
    rw [b1, a1]
  · show (saveDataToFile _ _).accelSeries = _
    rw [b2, a2]; rfl
  · show (saveDataToFile _ _).gyroSeries = _
    rw [b3, a3]; rfl
  · show (saveDataToFile _ _).startTime = _
    rw [b4, a4]; rfl

theorem afterFrame_chart_skip (fp : FloatOps) (c : Clock) (p r : List Byte) (t : State)
    (h : ¬ t.chartUpdateCounter + 1 ≥ Chart_FPS) :
    (afterFrame fp c p r t).chartUpdateCounter = t.chartUpdateCounter + 1 ∧
    (afterFrame fp c p r t).accelSeries = t.accelSeries ∧
    (afterFrame fp c p r t).gyroSeries = t.gyroSeries ∧
    (afterFrame fp c p r t).startTime = t.startTime := by
  obtain ⟨a1, a2, a3, a4⟩ := chartTick_skip c.chartNow (storeReadings fp p t) h
  obtain ⟨b1, b2, b3, b4⟩ := saveDataToFile_chart c.saveNow
    (chartTick c.chartNow (storeReadings fp p t))
  refine ⟨?_, ?_, ?_, ?_⟩
  · show (saveDataToFile _ _).chartUpdateCounter = _
    rw [b1, a1]; rfl
  · show (saveDataToFile _ _).accelSeries = _
    rw [b2, a2]; rfl
  · show (saveDataToFile _ _).gyroSeries = _
    rw [b3, a3]; rfl
  · show (saveDataToFile _ _).startTime = _
    rw [b4, a4]; rfl

theorem updateChart_congr (now : Int) (a g : Axis3 FloatBits) (t u : State)
    (h1 : t.startTime = u.startTime) (h2 : t.accelSeries = u.accelSeries)
    (h3 : t.gyroSeries = u.gyroSeries) :
    (updateChart now a g t).accelSeries = (updateChart now a g u).accelSeries ∧
    (updateChart now a g t).gyroSeries = (updateChart now a g u).gyroSeries := by
  unfold updateChart
  dsimp only
  rw [h1, h2, h3]
  exact ⟨rfl, rfl⟩

theorem emitAll_snoc (s : State) (es : List Emission) (e : Emission) :
    emitAll s (es ++ [e]) = updateChart e.1 e.2.1 e.2.2 (emitAll s es) := by
  unfold emitAll
  rw [List.foldl_append]
  rfl


theorem chartTrace_frame (fp : FloatOps) (s0 t : State) (fs : List DecodedFrame) (c : Clock)
    (p r : List Byte) (h : ChartTrace fp s0 t fs) :
    ChartTrace fp s0 (afterFrame fp c p r t) (fs ++ [(c, p)]) := by
  obtain ⟨h1, h2, h3, h4, h5, h6⟩ := h
  obtain ⟨_, _, f3, _, f5⟩ := afterFrame_fields fp c p r t
  have hmod : fs.length % 10 < 10 := Nat.mod_lt _ (by decide)
  by_cases hemit : t.chartUpdateCounter + 1 ≥ Chart_FPS
  · obtain ⟨a1, a2, a3, a4⟩ := afterFrame_chart_emit fp c p r t hemit
    have hten : (fs.length + 1) % Chart_FPS = 0 := by
      rw [h3] at hemit; rw [Chart_FPS_eq] at *; omega
    obtain ⟨u1, u2⟩ := updateChart_congr c.chartNow (means fp (decodePayload p)).1
      (means fp (decodePayload p)).2 t (emitAll s0 ((everyTenth fs).map (emissionOf fp)))
      (by rw [h4, emitAll_startTime]) h5 h6
    refine ⟨?_, ?_, ?_, ?_, ?_, ?_⟩
    · rw [f5, h1]; simp
    · rw [f3, h2, List.length_append, List.length_singleton]; omega
    · rw [a1, List.length_append, List.length_singleton, hten]
    · rw [a4, h4]
    · rw [a2, everyTenth_snoc, if_pos hten, List.map_append, List.map_cons, List.map_nil,
        emitAll_snoc, u1]
      rfl
    · rw [a3, everyTenth_snoc, if_pos hten, List.map_append, List.map_cons, List.map_nil,
        emitAll_snoc, u2]
      rfl
  · obtain ⟨a1, a2, a3, a4⟩ := afterFrame_chart_skip fp c p r t hemit
    have hten : ¬ (fs.length + 1) % Chart_FPS = 0 := by
      rw [h3] at hemit; rw [Chart_FPS_eq] at *; omega
    refine ⟨?_, ?_, ?_, ?_, ?_, ?_⟩
    · rw [f5, h1]; simp
    · rw [f3, h2, List.length_append, List.length_singleton]; omega
    · rw [a1, h3, List.length_append, List.length_singleton]
      rw [Chart_FPS_eq] at *; omega
    · rw [a4, h4]
    · rw [a2, everyTenth_snoc, if_neg hten, h5]
    · rw [a3, everyTenth_snoc, if_neg hten, h6]

theorem chartTrace_feed (fp : FloatOps) (clock : Nat → Nat → Clock) (s : State)
    (chunks : List (List Byte)) (h0 : s.chartUpdateCounter = 0) :
    ∃ s', feed fp clock s chunks = some s' ∧ ∃ fs, ChartTrace fp s s' fs :=
  feed_invariant fp (fun t => ∃ fs, ChartTrace fp s t fs)
    (fun _ _ _ _ h => h)
    (fun t c p r _ h =>
      h.elim (fun fs hfs => ⟨fs ++ [(c, p)], chartTrace_frame fp s t fs c p r hfs⟩))
    chunks clock s ⟨[], by simp, rfl, h0, rfl, rfl, rfl⟩


/-- C13: starting from a downsample counter of 0, whatever bytes arrive, if the handler
decodes the frames `fs` (M of them) then the counter ends at M mod 10 and the curves are
those produced by exactly floor(M / 10) calls of updateChart, one for each of the frames
number 10, 20, ..., each with the means of the readings of that very frame.  Frame by frame:
when the counter reaches Chart_FPS = 10 the frame's own means are emitted and the counter is
reset to 0, otherwise the counter grows by one and the curves are left alone. -/
theorem C13_chart_downsampling (fp : FloatOps) (clock : Nat → Nat → Clock) (s : State)
    (chunks : List (List Byte)) (h0 : s.chartUpdateCounter = 0) :
    (∃ (s' : State) (fs : List DecodedFrame),
      feed fp clock s chunks
        = some s' ∧
      s'.extracted = s.extracted ++ fs.map Prod.snd ∧
      s'.validFramesReceived = s.validFramesReceived + fs.length ∧
      s'.chartUpdateCounter = fs.length % Chart_FPS ∧
      (everyTenth fs).length = fs.length / Chart_FPS ∧
      (∀ j, (everyTenth fs)[j]? = fs[Chart_FPS * j + (Chart_FPS - 1)]?) ∧
      s'.accelSeries
        = (emitAll s ((everyTenth fs).map (emissionOf fp))).accelSeries ∧
      s'.gyroSeries
        = (emitAll s ((everyTenth fs).map (emissionOf fp))).gyroSeries) ∧
    (∀ (t : State) (c : Clock) (p r : List Byte),
      (t.chartUpdateCounter + 1 ≥ Chart_FPS →
        (afterFrame fp c p r t).chartUpdateCounter = 0 ∧
        (afterFrame fp c p r t).accelSeries
          = (updateChart c.chartNow (means fp (decodePayload p)).1
              (means fp (decodePayload p)).2 t).accelSeries ∧
        (afterFrame fp c p r t).gyroSeries
          = (updateChart c.chartNow (means fp (decodePayload p)).1
              (means fp (decodePayload p)).2 t).gyroSeries) ∧
      (t.chartUpdateCounter + 1 < Chart_FPS →
        (afterFrame fp c p r t).chartUpdateCounter = t.chartUpdateCounter + 1 ∧
        (afterFrame fp c p r t).accelSeries = t.accelSeries ∧
        (afterFrame fp c p r t).gyroSeries = t.gyroSeries)) ∧
    Chart_FPS = 10 := by
  refine ⟨?_, ?_, rfl⟩
  · obtain ⟨s', h1, fs, e1, e2, e3, _, e5, e6⟩ := chartTrace_feed fp clock s chunks h0
    exact ⟨s', fs, h1, e1, e2, e3, everyTenth_length fs, everyTenth_getElem? fs, e5, e6⟩
  · intro t c p r
    refine ⟨fun h => ?_, fun h => ?_⟩
    · obtain ⟨a1, a2, a3, _⟩ := afterFrame_chart_emit fp c p r t h
      exact ⟨a1, a2, a3⟩
    · obtain ⟨a1, a2, a3, _⟩ := afterFrame_chart_skip fp c p r t (by omega)
      exact ⟨a1, a2, a3⟩

theorem C13_chart_downsampling_witness :
    (State.init 0).chartUpdateCounter = 0 ∧
    (
    (∃ (s' : State) (fs : List DecodedFrame),
      feed sampleOps sampleClock (State.init 0) (List.replicate 25 (frame samplePayload))
        = some s' ∧
      s'.extracted = (State.init 0).extracted ++ fs.map Prod.snd ∧
      s'.validFramesReceived = (State.init 0).validFramesReceived + fs.length ∧
      s'.chartUpdateCounter = fs.length % Chart_FPS ∧
      (everyTenth fs).length = fs.length / Chart_FPS ∧
      (∀ j, (everyTenth fs)[j]? = fs[Chart_FPS * j + (Chart_FPS - 1)]?) ∧
      s'.accelSeries
        = (emitAll (State.init 0) ((everyTenth fs).map (emissionOf sampleOps))).accelSeries ∧
      s'.gyroSeries
        = (emitAll (State.init 0) ((everyTenth fs).map (emissionOf sampleOps))).gyroSeries) ∧
    (∀ (t : State) (c : Clock) (p r : List Byte),
      (t.chartUpdateCounter + 1 ≥ Chart_FPS →
        (afterFrame sampleOps c p r t).chartUpdateCounter = 0 ∧
        (afterFrame sampleOps c p r t).accelSeries
          = (updateChart c.chartNow (means sampleOps (decodePayload p)).1
              (means sampleOps (decodePayload p)).2 t).accelSeries ∧
        (afterFrame sampleOps c p r t).gyroSeries
          = (updateChart c.chartNow (means sampleOps (decodePayload p)).1
              (means sampleOps (decodePayload p)).2 t).gyroSeries) ∧
      (t.chartUpdateCounter + 1 < Chart_FPS →
        (afterFrame sampleOps c p r t).chartUpdateCounter = t.chartUpdateCounter + 1 ∧
        (afterFrame sampleOps c p r t).accelSeries = t.accelSeries ∧
        (afterFrame sampleOps c p r t).gyroSeries = t.gyroSeries)) ∧
    Chart_FPS = 10) :=
  ⟨rfl, C13_chart_downsampling sampleOps sampleClock (State.init 0)
    (List.replicate 25 (frame samplePayload)) rfl⟩

end ImuSerial
